import Mathlib

/-!
Verification of the ReqIF normalization / conversion pipeline
(`main.py`, `main_strictdoc.py`, `test_all_examples.py`).

The Python data model (the `reqif` bundle object graph) is embedded
shallowly: optional Python attributes become `Option`, in-place mutation
becomes explicit state passing, a caught Python exception becomes the
`Except.error` branch of a body function whose wrapper turns it into the
partially-mutated state (the `try ... except Exception: pass` idiom).
External collaborators (the StrictDoc converter, the StrictDoc field-title
mapping, the filesystem) are parameters at their interface boundary.
-/

set_option maxRecDepth 4096

namespace ReqSpec

/-- Python whitespace for `str.strip` / `str.split`. -/
def isPySpace (c : Char) : Bool :=
  c = ' ' || c = '\t' || c = '\n' || c = '\r' || c = '\x0b' || c = '\x0c'

/-- Python `str.strip()` (whitespace from both ends). -/
def pyStrip (s : String) : String :=
  String.mk ((s.data.dropWhile isPySpace).reverse.dropWhile isPySpace |>.reverse)

/-- Python string slicing `s[:n]` (by characters). -/
def pyTake (s : String) (n : Nat) : String := String.mk (s.data.take n)

/-- Python `f"{x}"` rendering of an optional string (`None` renders as "None"). -/
def pyOptStr : Option String → String
  | some s => s
  | none => "None"

/-- The `reqif` attribute-kind enumeration `SpecObjectAttributeType`. -/
inductive SpecAttrType where
  | STRING
  | INTEGER
  | REAL
  | BOOLEAN
  | DATE
  | ENUMERATION
  | XHTML
  deriving DecidableEq

/-- Python `SpecObjectAttributeType.name`. -/
def SpecAttrType.pyName : SpecAttrType → String
  | .STRING => "STRING"
  | .INTEGER => "INTEGER"
  | .REAL => "REAL"
  | .BOOLEAN => "BOOLEAN"
  | .DATE => "DATE"
  | .ENUMERATION => "ENUMERATION"
  | .XHTML => "XHTML"

/-- The set of kinds rewritten by `fix_unsupported_attribute_types`. -/
def unsupportedType (t : SpecAttrType) : Bool :=
  t = .BOOLEAN || t = .REAL || t = .INTEGER || t = .DATE

/-- A dynamically-typed Python attribute value: `None`, a `str`, a `bool`,
or some other object whose `str()` rendering is `repr`. -/
inductive PyValue where
  | vnone
  | vstr (s : String)
  | vbool (b : Bool)
  | vother (repr : String)
  deriving DecidableEq

/-- `str(value)` as used by `fix_unsupported_attribute_types`
(`bool` handled separately before this point). -/
def PyValue.pyToString : PyValue → PyValue
  | .vnone => .vnone
  | .vstr s => .vstr s
  | .vbool b => .vstr (if b then "true" else "false")
  | .vother r => .vstr r

/-- A spec-object attribute (`SpecObjectAttribute`). -/
structure SOAttribute where
  attribute_type : SpecAttrType
  value : PyValue
  deriving DecidableEq

/-- An attribute definition inside a spec type. -/
structure AttributeDefinition where
  identifier : String
  long_name : Option String
  attribute_type : SpecAttrType
  deriving DecidableEq

/-- A spec type (`attribute_definitions = none` models a spec type object
without that attribute). -/
structure SpecType where
  identifier : String
  long_name : Option String
  attribute_definitions : Option (List AttributeDefinition)
  deriving DecidableEq

/-- A spec object. -/
structure SpecObject where
  identifier : String
  attributes : List SOAttribute
  deriving DecidableEq

/-- A hierarchy node of a specification tree. -/
inductive HNode where
  | mk (identifier : String) (spec_object : String) (children : List HNode)

mutual

def HNode.deq : (a b : HNode) → Decidable (a = b)
  | .mk i1 s1 c1, .mk i2 s2 c2 =>
    match String.decEq i1 i2 with
    | .isFalse h => .isFalse fun he => by cases he; exact h rfl
    | .isTrue h1 =>
      match String.decEq s1 s2 with
      | .isFalse h => .isFalse fun he => by cases he; exact h rfl
      | .isTrue h2 =>
        match HNode.deqList c1 c2 with
        | .isFalse h => .isFalse fun he => by cases he; exact h rfl
        | .isTrue h3 => .isTrue (by rw [h1, h2, h3])

def HNode.deqList : (a b : List HNode) → Decidable (a = b)
  | [], [] => .isTrue rfl
  | [], _ :: _ => .isFalse nofun
  | _ :: _, [] => .isFalse nofun
  | x :: xs, y :: ys =>
    match HNode.deq x y with
    | .isFalse h => .isFalse fun he => by cases he; exact h rfl
    | .isTrue h1 =>
      match HNode.deqList xs ys with
      | .isFalse h => .isFalse fun he => by cases he; exact h rfl
      | .isTrue h2 => .isTrue (by rw [h1, h2])

end

instance : DecidableEq HNode := HNode.deq

def HNode.identifier : HNode → String
  | .mk i _ _ => i

def HNode.spec_object : HNode → String
  | .mk _ s _ => s

def HNode.children : HNode → List HNode
  | .mk _ _ c => c

/-- A specification (document) with its root hierarchy nodes. -/
structure Specification where
  identifier : String
  children : List HNode
  deriving DecidableEq

/-- A spec relation; `relation_type_ref = none` models both a missing
attribute and Python `None` (the code treats `None` and `""` as falsy). -/
structure SpecRelation where
  identifier : String
  source : String
  target : String
  relation_type_ref : Option String
  deriving DecidableEq

/-- The `req_if_content` record. A `none` list models Python `None`. -/
structure ReqIFContent where
  spec_types : Option (List SpecType)
  spec_objects : Option (List SpecObject)
  specifications : Option (List Specification)
  spec_relations : Option (List SpecRelation)
  deriving DecidableEq

/-- `bundle.core_content`. -/
structure CoreContent where
  req_if_content : Option ReqIFContent
  deriving DecidableEq

/-- `bundle.lookup` with its `spec_relations_parent_lookup` dict
(source identifier to ordered list of targets). -/
structure Lookup where
  spec_relations_parent_lookup : List (String × List String)
  deriving DecidableEq

/-- A parsed ReqIF bundle. -/
structure Bundle where
  core_content : Option CoreContent
  lookup : Lookup
  deriving DecidableEq

/-- `bundle.core_content.req_if_content`, `none` when either hop is `None`. -/
def contentOf (b : Bundle) : Option ReqIFContent :=
  b.core_content.bind (·.req_if_content)

/-- Replace the content of a bundle (in-place mutation of the graph). -/
def setContent (b : Bundle) (c : ReqIFContent) : Bundle :=
  { b with core_content := some { req_if_content := some c } }

/-! ### Pass 1: `fix_unsupported_attribute_types` -/

/-- One attribute definition of pass 1: rewrite an unsupported kind to
STRING and record `"{long_name}:{type.name}"` (formatted before the
assignment, so with the original kind). -/
def fixTypeAttrDef (a : AttributeDefinition) : AttributeDefinition × List String :=
  if unsupportedType a.attribute_type then
    ({ a with attribute_type := .STRING },
      [pyOptStr a.long_name ++ ":" ++ a.attribute_type.pyName])
  else (a, [])

def fixTypeAttrDefs : List AttributeDefinition → List AttributeDefinition × List String
  | [] => ([], [])
  | a :: rest =>
    let pa := fixTypeAttrDef a
    let pr := fixTypeAttrDefs rest
    (pa.1 :: pr.1, pa.2 ++ pr.2)

def fixTypeSpecType (st : SpecType) : SpecType × List String :=
  match st.attribute_definitions with
  | none => (st, [])
  | some [] => (st, [])
  | some attrs =>
    let pa := fixTypeAttrDefs attrs
    ({ st with attribute_definitions := some pa.1 }, pa.2)

def fixTypeSpecTypes : List SpecType → List SpecType × List String
  | [] => ([], [])
  | st :: rest =>
    let ps := fixTypeSpecType st
    let pr := fixTypeSpecTypes rest
    (ps.1 :: pr.1, ps.2 ++ pr.2)

/-- Value coercion of pass 1 on one spec-object attribute: if the kind was
unsupported, set it to STRING and coerce the value to text
(`bool` to "true"/"false", other non-strings via `str`). -/
def fixValueAttr (a : SOAttribute) : SOAttribute :=
  if unsupportedType a.attribute_type then
    { attribute_type := .STRING, value := a.value.pyToString }
  else a

def fixValueObj (o : SpecObject) : SpecObject :=
  if o.attributes = [] then o
  else { o with attributes := o.attributes.map fixValueAttr }

/-- `fix_unsupported_attribute_types`: convert BOOLEAN/REAL/INTEGER/DATE
attribute kinds to STRING (definitions and stored values). -/
def fix_unsupported_attribute_types (b : Bundle) : Bundle × List String :=
  match contentOf b with
  | none => (b, [])
  | some c =>
    match c.spec_types with
    | none => (b, [])
    | some [] => (b, [])
    | some sts =>
      let ps := fixTypeSpecTypes sts
      let objs' :=
        match c.spec_objects with
        | none => c.spec_objects
        | some [] => c.spec_objects
        | some os => some (os.map fixValueObj)
      (setContent b { c with spec_types := some ps.1, spec_objects := objs' }, ps.2)

/-! ### Pass 2: `fix_missing_spec_type_names` -/

/-- `spec_type.long_name is None or spec_type.long_name.strip() == ""`. -/
def blankName : Option String → Bool
  | none => true
  | some s => pyStrip s = ""

def fixNameSpecType (st : SpecType) : SpecType × List String :=
  if blankName st.long_name then
    ({ st with long_name := some (if st.identifier = "" then "REQUIREMENT" else st.identifier) },
      [st.identifier])
  else (st, [])

def fixNameSpecTypes : List SpecType → List SpecType × List String
  | [] => ([], [])
  | st :: rest =>
    let ps := fixNameSpecType st
    let pr := fixNameSpecTypes rest
    (ps.1 :: pr.1, ps.2 ++ pr.2)

/-- `fix_missing_spec_type_names`: give blank/missing display names the
identifier (or "REQUIREMENT") as fallback. -/
def fix_missing_spec_type_names (b : Bundle) : Bundle × List String :=
  match contentOf b with
  | none => (b, [])
  | some c =>
    match c.spec_types with
    | none => (b, [])
    | some [] => (b, [])
    | some sts =>
      let ps := fixNameSpecTypes sts
      (setContent b { c with spec_types := some ps.1 }, ps.2)

/-! ### Pass 3: `fix_duplicate_field_names`

The StrictDoc field-title mapping `map_reqif_field_title_to_sdoc_field_title`
is an external collaborator; it is a parameter `mapF` here. Applying it to a
`None` display name yields `None` in Python, and the subsequent `.upper()`
call raises; that raise is the `Except.error` branch, whose payload is the
in-place mutated state (renamed prefix plus untouched remainder) together
with the `renamed_fields` strings accumulated so far. -/

def safeNameChar (c : Char) : Char := if c = '.' || c = '-' then '_' else c

def isSafeChar (c : Char) : Bool :=
  ('A' ≤ c && c ≤ 'Z') || ('a' ≤ c && c ≤ 'z') || ('0' ≤ c && c ≤ '9') || c = '_'

/-- StrictDoc's safe-name transform as inlined in the pass: uppercase,
replace `.`/`-` with `_`, drop remaining non `[A-Za-z0-9_]` characters
(character-wise ASCII model of `str.upper`). -/
def safeName (s : String) : String :=
  String.mk (((s.data.map Char.toUpper).map safeNameChar).filter isSafeChar)

def seenLookup : List (String × Nat) → String → Option Nat
  | [], _ => none
  | (k, v) :: rest, key => if k = key then some v else seenLookup rest key

/-- Python dict assignment `seen[key] = v` (insertion order preserved). -/
def seenSet : List (String × Nat) → String → Nat → List (String × Nat)
  | [], key, v => [(key, v)]
  | (k, w) :: rest, key, v =>
    if k = key then (k, v) :: rest else (k, w) :: seenSet rest key v

def fixDupAttrs (mapF : String → String) (seen : List (String × Nat)) :
    List AttributeDefinition →
      Except (List AttributeDefinition × List String) (List AttributeDefinition × List String)
  | [] => .ok ([], [])
  | a :: rest =>
    match a.long_name with
    | none => .error (a :: rest, [])
    | some nm =>
      let key := safeName (mapF nm)
      match seenLookup seen key with
      | some c =>
        let newName := nm ++ "_" ++ toString (c + 1)
        let a' := { a with long_name := some newName }
        match fixDupAttrs mapF (seenSet seen key (c + 1)) rest with
        | .ok (rest', fs) => .ok (a' :: rest', (nm ++ " -> " ++ newName) :: fs)
        | .error (rest', fs) => .error (a' :: rest', (nm ++ " -> " ++ newName) :: fs)
      | none =>
        match fixDupAttrs mapF (seenSet seen key 1) rest with
        | .ok (rest', fs) => .ok (a :: rest', fs)
        | .error (rest', fs) => .error (a :: rest', fs)

def fixDupTypes (mapF : String → String) :
    List SpecType → Except (List SpecType × List String) (List SpecType × List String)
  | [] => .ok ([], [])
  | st :: rest =>
    match st.attribute_definitions with
    | none =>
      match fixDupTypes mapF rest with
      | .ok (rest', fs) => .ok (st :: rest', fs)
      | .error (rest', fs) => .error (st :: rest', fs)
    | some [] =>
      match fixDupTypes mapF rest with
      | .ok (rest', fs) => .ok (st :: rest', fs)
      | .error (rest', fs) => .error (st :: rest', fs)
    | some attrs =>
      match fixDupAttrs mapF [] attrs with
      | .ok (attrs', fs1) =>
        let st' := { st with attribute_definitions := some attrs' }
        match fixDupTypes mapF rest with
        | .ok (rest', fs2) => .ok (st' :: rest', fs1 ++ fs2)
        | .error (rest', fs2) => .error (st' :: rest', fs1 ++ fs2)
      | .error (attrs', fs1) =>
        .error ({ st with attribute_definitions := some attrs' } :: rest, fs1)

/-- `fix_duplicate_field_names`: within each spec type, detect collisions of
the normalized keys in declaration order and rename colliding display names
by appending `_<n>`. The `except Exception: pass` wrapper makes the error
branch return the partially-mutated bundle with whatever was recorded. -/
def fix_duplicate_field_names (mapF : String → String) (b : Bundle) : Bundle × List String :=
  match contentOf b with
  | none => (b, [])
  | some c =>
    match c.spec_types with
    | none => (b, [])
    | some [] => (b, [])
    | some sts =>
      match fixDupTypes mapF sts with
      | .ok (sts', fs) => (setContent b { c with spec_types := some sts' }, fs)
      | .error (sts', fs) => (setContent b { c with spec_types := some sts' }, fs)

/-! ### Pass 4: `fix_empty_attribute_values` -/

/-- Keep an attribute iff its value is not `None` and not a
whitespace-only string. -/
def keepAttr (a : SOAttribute) : Bool :=
  match a.value with
  | .vnone => false
  | .vstr s => pyStrip s ≠ ""
  | .vbool _ => true
  | .vother _ => true

def fixEmptyObj (o : SpecObject) : SpecObject × List String :=
  if o.attributes = [] then (o, [])
  else
    let kept := o.attributes.filter keepAttr
    if kept.length < o.attributes.length then ({ o with attributes := kept }, [o.identifier])
    else ({ o with attributes := kept }, [])

def fixEmptyObjs : List SpecObject → List SpecObject × List String
  | [] => ([], [])
  | o :: rest =>
    let po := fixEmptyObj o
    let pr := fixEmptyObjs rest
    (po.1 :: pr.1, po.2 ++ pr.2)

/-- `fix_empty_attribute_values`: drop attributes whose value is `None` or a
blank string; record the identifiers of objects that lost something. -/
def fix_empty_attribute_values (b : Bundle) : Bundle × List String :=
  match contentOf b with
  | none => (b, [])
  | some c =>
    match c.spec_objects with
    | none => (b, [])
    | some [] => (b, [])
    | some os =>
      let po := fixEmptyObjs os
      (setContent b { c with spec_objects := some po.1 }, po.2)

/-! ### Pass 5: `fix_missing_spec_object_refs` -/

/-- `filter_valid_nodes`: keep a node iff its spec-object reference is
valid, recursing into the children of kept nodes; a dropped node's whole
subtree is dropped and only the dropped node itself is recorded. -/
def filterNodes (valid : List String) : List HNode → List HNode × List String
  | [] => ([], [])
  | HNode.mk i so ch :: rest =>
    if so ∈ valid then
      let pc := filterNodes valid ch
      let pr := filterNodes valid rest
      (HNode.mk i so pc.1 :: pr.1, pc.2 ++ pr.2)
    else
      let pr := filterNodes valid rest
      (pr.1, ("hierarchy:" ++ i) :: pr.2)
termination_by l => sizeOf l

def filterSpecs (valid : List String) : List Specification → List Specification × List String
  | [] => ([], [])
  | sp :: rest =>
    let psp : Specification × List String :=
      match sp.children with
      | [] => (sp, [])
      | ch =>
        let pc := filterNodes valid ch
        ({ sp with children := pc.1 }, pc.2)
    let pr := filterSpecs valid rest
    (psp.1 :: pr.1, psp.2 ++ pr.2)

/-- Keep a relation iff source and target are valid spec objects and the
relation-type reference, when truthy, is a valid spec type. -/
def relKeep (validRefs validTypes : List String) (r : SpecRelation) : Bool :=
  decide (r.source ∈ validRefs) && decide (r.target ∈ validRefs) &&
    (match r.relation_type_ref with
     | none => true
     | some t => t = "" || decide (t ∈ validTypes))

/-- Python dict-of-lists update used when rebuilding
`spec_relations_parent_lookup`. -/
def addLookup (l : List (String × List String)) (src tgt : String) : List (String × List String) :=
  match l with
  | [] => [(src, [tgt])]
  | (k, ts) :: rest =>
    if k = src then (k, ts ++ [tgt]) :: rest else (k, ts) :: addLookup rest src tgt

def buildLookup : List (String × List String) → List SpecRelation → List (String × List String)
  | acc, [] => acc
  | acc, r :: rest => buildLookup (addLookup acc r.source r.target) rest

/-- The `if content.specifications:` guarded hierarchy filtering. -/
def pruneSpecs (valid : List String) :
    Option (List Specification) → Option (List Specification) × List String
  | none => (none, [])
  | some [] => (some [], [])
  | some specs =>
    let ps := filterSpecs valid specs
    (some ps.1, ps.2)

/-- The `if content.spec_relations:` guarded relation filtering, with its
`"relations:<n>"` summary item. -/
def pruneRels (validRefs validTypes : List String) :
    Option (List SpecRelation) → Option (List SpecRelation) × List String
  | none => (none, [])
  | some [] => (some [], [])
  | some rels =>
    let kept := rels.filter (relKeep validRefs validTypes)
    (some kept,
      if kept.length < rels.length then
        ["relations:" ++ toString (rels.length - kept.length)]
      else [])

/-- The relations the lookup is rebuilt from
(`if content.spec_relations:` — falsy leaves the lookup cleared). -/
def relsForLookup : Option (List SpecRelation) → List SpecRelation
  | none => []
  | some [] => []
  | some rels => rels

/-- `fix_missing_spec_object_refs`: prune hierarchy nodes and relations with
dangling references, then rebuild the reverse lookup from the surviving
relations (the lookup is cleared even when no relations survive). -/
def fix_missing_spec_object_refs (b : Bundle) : Bundle × List String :=
  match contentOf b with
  | none => (b, [])
  | some c =>
    let validRefs := (c.spec_objects.getD []).map (·.identifier)
    let pspecs := pruneSpecs validRefs c.specifications
    let validTypes := (c.spec_types.getD []).map (·.identifier)
    let prels := pruneRels validRefs validTypes c.spec_relations
    let c' := { c with specifications := pspecs.1, spec_relations := prels.1 }
    let lk := buildLookup [] (relsForLookup c'.spec_relations)
    ({ setContent b c' with lookup := ⟨lk⟩ }, pspecs.2 ++ prels.2)

/-! ### `apply_workarounds` and the conversion orchestrator -/

/-- `apply_workarounds`: run the five passes in order on the same bundle,
collecting one description string per pass that changed something. -/
def apply_workarounds (mapF : String → String) (b : Bundle) : Bundle × List String :=
  let p1 := fix_unsupported_attribute_types b
  let w1 :=
    if p1.2 = [] then []
    else ["Converted unsupported types to STRING: " ++ String.intercalate ", " p1.2]
  let p2 := fix_missing_spec_type_names p1.1
  let w2 :=
    if p2.2 = [] then []
    else ["Added default names to " ++ toString p2.2.length ++ " spec types"]
  let p3 := fix_duplicate_field_names mapF p2.1
  let w3 :=
    if p3.2 = [] then []
    else ["Renamed duplicate fields: " ++ String.intercalate ", " p3.2]
  let p4 := fix_empty_attribute_values p3.1
  let w4 :=
    if p4.2 = [] then []
    else ["Removed empty attributes from " ++ toString p4.2.length ++ " objects"]
  let p5 := fix_missing_spec_object_refs p4.1
  let w5 :=
    if p5.2 = [] then []
    else ["Removed invalid references: " ++ String.intercalate ", " p5.2]
  (p5.1, w1 ++ w2 ++ w3 ++ w4 ++ w5)

/-- A serialized StrictDoc document dictionary; the external converter and
`JSONGenerator._write_document` are collapsed into the `conv` oracle, and
`_SOURCE_FILE` tagging mutates `source_file`. -/
structure DocDict where
  payload : String
  source_file : Option String
  deriving DecidableEq

/-- The JSON output record; `[]`/`none` model an absent key. -/
structure JsonData where
  comment : String
  documents : List DocDict
  workarounds : List String
  attachments : Option (List String)
  partial_errors : List String
  deriving DecidableEq

structure ConversionResult where
  success : Bool
  data : Option JsonData
  error : Option String
  workarounds_applied : List String
  deriving DecidableEq

/-- `convert_bundle_to_json`: one invocation of the external schema
conversion (`conv`); an exception becomes a failure with the message
truncated to 500 characters; an empty document list is a failure with its
fixed message (and, as in the code, default `workarounds_applied=[]`). -/
def convert_bundle_to_json (conv : Bundle → Except String (List DocDict)) (b : Bundle)
    (workarounds_applied : List String) : ConversionResult :=
  match conv b with
  | .error e => ⟨false, none, some (pyTake e 500), workarounds_applied⟩
  | .ok [] => ⟨false, none, some "No specifications found in ReqIF file", []⟩
  | .ok docs =>
    ⟨true, some ⟨"Normalized via StrictDoc.", docs, workarounds_applied, none, []⟩,
      none, workarounds_applied⟩

/-- `convert_reqif_to_json`: direct conversion, then repair-and-retry.
Returns the result, the (possibly mutated) bundle, and the number of
invocations of the external conversion. -/
def convert_reqif_to_json (mapF : String → String)
    (conv : Bundle → Except String (List DocDict)) (b : Bundle) :
    ConversionResult × Bundle × Nat :=
  let r1 := convert_bundle_to_json conv b []
  if r1.success then (r1, b, 1)
  else
    let pw := apply_workarounds mapF b
    if pw.2.isEmpty then (⟨false, none, r1.error, pw.2⟩, pw.1, 1)
    else
      let r2 := convert_bundle_to_json conv pw.1 pw.2
      if r2.success then (r2, pw.1, 2)
      else (⟨false, none, r2.error, pw.2⟩, pw.1, 2)

/-! ### Archive aggregator: `process_reqifz_file` (main.py)

The parsed `.reqifz` archive is named bundles (dict order becomes list
order) plus attachment payloads (bytes as `List Nat`). Filesystem writes
are the oracle `fs`; a raised I/O error is its `Except.error` branch and
propagates to the function's outer `except`, which turns everything into a
single `Archive error:` failure. The second component of the result is the
list of attachment names actually written (the observable disk effect). -/

structure Archive where
  reqif_bundles : List (String × Bundle)
  attachments : List (String × List Nat)
  deriving DecidableEq

def setSource (name : String) (d : DocDict) : DocDict := { d with source_file := some name }

/-- The per-member loop of `process_reqifz_file`: accumulates tagged
documents, tagged workaround descriptions (for every member), and one
`"[member] error"` string per failed member. -/
def processMembers (mapF : String → String) (conv : Bundle → Except String (List DocDict)) :
    List (String × Bundle) → List DocDict × List String × List String
  | [] => ([], [], [])
  | (name, b) :: rest =>
    let r := (convert_reqif_to_json mapF conv b).1
    let tagged := r.workarounds_applied.map (fun w => "[" ++ name ++ "] " ++ w)
    let pr := processMembers mapF conv rest
    match r.success, r.data with
    | true, some d => (d.documents.map (setSource name) ++ pr.1, tagged ++ pr.2.1, pr.2.2)
    | _, _ => (pr.1, tagged ++ pr.2.1, ("[" ++ name ++ "] " ++ pyOptStr r.error) :: pr.2.2)

/-- The attachment-extraction loop: directory markers (name ending in "/")
and empty payloads are skipped; a write failure aborts the loop, keeping
the names already written. Returns (extracted relative paths, written
names, error of the aborting write if any). -/
def extractAttachments (fs : String → List Nat → Except String Unit) :
    List (String × List Nat) → List String × List String × Option String
  | [] => ([], [], none)
  | (name, dat) :: rest =>
    if dat = [] || name.data.getLast? = some '/' then extractAttachments fs rest
    else
      match fs name dat with
      | .ok _ =>
        let pr := extractAttachments fs rest
        (("attachments/" ++ name) :: pr.1, name :: pr.2.1, pr.2.2)
      | .error m => ([], [], some m)

/-- `process_reqifz_file`: convert every member bundle, extract
attachments, and aggregate. -/
def process_reqifz_file (mapF : String → String)
    (conv : Bundle → Except String (List DocDict))
    (fs : String → List Nat → Except String Unit) (arch : Archive) :
    ConversionResult × List String :=
  let pm := processMembers mapF conv arch.reqif_bundles
  let pe : List String × List String × Option String :=
    match arch.attachments with
    | [] => ([], [], none)
    | atts => extractAttachments fs atts
  match pe.2.2 with
  | some m => (⟨false, none, some ("Archive error: " ++ pyTake m 300), []⟩, pe.2.1)
  | none =>
    match pm.1 with
    | [] =>
      (⟨false, none,
          some (if pm.2.2 = [] then "No documents found"
            else String.intercalate "; " pm.2.2), pm.2.1⟩,
        pe.2.1)
    | _ => (⟨true, some ⟨"Normalized via StrictDoc.", pm.1, pm.2.1, some pe.1, pm.2.2⟩,
          none, pm.2.1⟩,
        pe.2.1)

/-! ### Hierarchy flattener: `flatten_document` (main_strictdoc.py)

A serialized document node is its dictionary of string fields (without the
"NODES" key, whose value is the `children` list). -/

inductive JNode where
  | mk (fields : List (String × String)) (children : List JNode)

def JNode.fields : JNode → List (String × String)
  | .mk f _ => f

def JNode.children : JNode → List JNode
  | .mk _ c => c

/-- `node.get(key, "")`. -/
def jGet (n : JNode) (k : String) : String :=
  match n.fields.lookup k with
  | some v => v
  | none => ""

/-- Length bound for `dropWhile`, used in termination arguments. -/
theorem dropWhile_len_le (p : Char → Bool) : ∀ l : List Char, (l.dropWhile p).length ≤ l.length
  | [] => by simp
  | c :: rest => by
    by_cases hc : p c
    · rw [List.dropWhile_cons_of_pos hc]
      have := dropWhile_len_le p rest
      simp only [List.length_cons]
      omega
    · rw [List.dropWhile_cons_of_neg (by simpa using hc)]

/-- `re.sub(r"<[^>]+>", "", ...)` helper: after a `<`, at least one
non-`>` character and then `>`; returns the remainder after the tag. -/
def dropTagGo : List Char → Option (List Char)
  | [] => none
  | c :: rest => if c = '>' then some rest else dropTagGo rest

def dropTag : List Char → Option (List Char)
  | [] => none
  | c :: rest => if c = '>' then none else dropTagGo rest

theorem dropTagGo_length : ∀ {l r : List Char}, dropTagGo l = some r → r.length < l.length
  | [], r, h => by simp [dropTagGo] at h
  | c :: rest, r, h => by
    by_cases hc : c = '>'
    · simp [dropTagGo, hc] at h
      subst h
      simp
    · simp only [dropTagGo, if_neg hc] at h
      have := dropTagGo_length h
      simp only [List.length_cons]
      omega

theorem dropTag_length : ∀ {l r : List Char}, dropTag l = some r → r.length < l.length
  | [], r, h => by simp [dropTag] at h
  | c :: rest, r, h => by
    by_cases hc : c = '>'
    · simp [dropTag, hc] at h
    · simp only [dropTag, if_neg hc] at h
      have := dropTagGo_length h
      simp only [List.length_cons]
      omega

def stripTags : List Char → List Char
  | [] => []
  | c :: rest =>
    if c = '<' then
      match h : dropTag rest with
      | some rest' => stripTags rest'
      | none => c :: stripTags rest
    else c :: stripTags rest
termination_by l => l.length
decreasing_by
  · have := dropTag_length h
    simp only [List.length_cons]
    omega
  · simp
  · simp

/-- Python `str.split()` (split on whitespace runs, dropping empties). -/
def pyWords : List Char → List (List Char)
  | [] => []
  | c :: rest =>
    if isPySpace c then pyWords rest
    else
      (c :: rest.takeWhile (fun x => !isPySpace x)) ::
        pyWords (rest.dropWhile (fun x => !isPySpace x))
termination_by l => l.length
decreasing_by
  · simp
  · simp only [List.length_cons]
    have := dropWhile_len_le (fun x => !isPySpace x) rest
    omega

/-- `clean_html`: strip `<...>` tags, then collapse whitespace. -/
def clean_html (s : String) : String :=
  if s = "" then ""
  else String.intercalate " " ((pyWords (stripTags s.data)).map String.mk)

structure FlatReq where
  id : String
  name : String
  type : String
  attributes : List (String × String)
  toc : Option String
  deriving DecidableEq

structure FlatLink where
  source : String
  type : String
  target : String
  deriving DecidableEq

/-- Dictionary fields kept as requirement attributes. -/
def reqAttributes (fields : List (String × String)) : List (String × String) :=
  fields.filter (fun kv => !(kv.1.data.head? = some '_' : Bool) && kv.1 ≠ "NODES" && kv.1 ≠ "UID")

/-- `process_nodes` of `flatten_document`; `parent = ""` models
`parent_uid=None` (both are falsy in the link guard). -/
def flattenGo (parent : String) : List JNode → List FlatReq × List FlatLink
  | [] => ([], [])
  | JNode.mk fields ch :: rest =>
    let n : JNode := JNode.mk fields ch
    let uid := jGet n "UID"
    let title := jGet n "TITLE"
    let toc := jGet n "_TOC"
    let req : FlatReq :=
      { id := uid
        name := if title = "" then clean_html (jGet n "STATEMENT") else title
        type := jGet n "_NODE_TYPE"
        attributes := reqAttributes fields
        toc := if toc = "" then none else some toc }
    let links0 : List FlatLink :=
      if parent ≠ "" ∧ uid ≠ "" then [⟨parent, "hierarchy", uid⟩] else []
    let pc := flattenGo uid ch
    let pr := flattenGo parent rest
    (req :: pc.1 ++ pr.1, links0 ++ pc.2 ++ pr.2)

/-- `flatten_document`: the document dictionary is itself a `JNode` whose
children are its top-level "NODES". -/
def flatten_document (doc : JNode) : List FlatReq × List FlatLink :=
  flattenGo "" doc.children

/-- Total number of nodes in a forest. -/
def countJNodes : List JNode → Nat
  | [] => 0
  | JNode.mk _ ch :: rest => 1 + countJNodes ch + countJNodes rest

/-- Every node in the forest has a non-empty "UID" field. -/
def allUidsPresent : List JNode → Bool
  | [] => true
  | JNode.mk f ch :: rest =>
    decide (jGet (JNode.mk f ch) "UID" ≠ "") && allUidsPresent ch && allUidsPresent rest

/-! ### Text preprocessor: `preprocess_reqif_xml` -/

def isUpperAZ (c : Char) : Bool := 'A' ≤ c && c ≤ 'Z'

def stripBOM : List Char → List Char
  | '\uFEFF' :: rest => rest
  | l => l

/-- Does `re.search(r"<\?xml[^?]*\?>", ...)` match at this position? -/
def declMatchAt (l : List Char) : Bool :=
  match l with
  | '<' :: '?' :: 'x' :: 'm' :: 'l' :: rest =>
    match rest.dropWhile (· ≠ '?') with
    | '?' :: '>' :: _ => true
    | _ => false
  | _ => false

/-- `content[match.start():]` for the first declaration match, if any. -/
def cutFromDecl : List Char → Option (List Char)
  | [] => none
  | c :: rest => if declMatchAt (c :: rest) then some (c :: rest) else cutFromDecl rest

/-- The literal `reqif:` (the prefix tried first by the alternation). -/
def nsTagLitLong : List Char := ['r', 'e', 'q', 'i', 'f', ':']

/-- The literal `r:`. -/
def nsTagLitShort : List Char := ['r', ':']

/-- `(reqif|r):([A-Z])` at the current position: returns the captured
upper-case letter and the remainder after it. -/
def matchNsTag (l : List Char) : Option (Char × List Char) :=
  if nsTagLitLong.isPrefixOf l then
    match l.drop 6 with
    | c :: rest => if isUpperAZ c then some (c, rest) else none
    | [] => none
  else if nsTagLitShort.isPrefixOf l then
    match l.drop 2 with
    | c :: rest => if isUpperAZ c then some (c, rest) else none
    | [] => none
  else none

theorem matchNsTag_length {l : List Char} {c : Char} {r : List Char}
    (h : matchNsTag l = some (c, r)) : r.length < l.length := by
  unfold matchNsTag at h
  split at h
  · split at h
    · rename_i heq
      split at h
      · injection h with h
        have h2 := congrArg Prod.snd h
        simp only at h2
        subst h2
        have h3 := congrArg List.length heq
        simp only [List.length_drop, List.length_cons] at h3
        omega
      · exact absurd h (by simp)
    · exact absurd h (by simp)
  · split at h
    · split at h
      · rename_i heq
        split at h
        · injection h with h
          have h2 := congrArg Prod.snd h
          simp only at h2
          subst h2
          have h3 := congrArg List.length heq
          simp only [List.length_drop, List.length_cons] at h3
          omega
        · exact absurd h (by simp)
      · exact absurd h (by simp)
    · exact absurd h (by simp)

/-- `/` then `(reqif|r):([A-Z])`. -/
def matchCloseNs (l : List Char) : Option (Char × List Char) :=
  match l with
  | [] => none
  | c :: rest => if c = '/' then matchNsTag rest else none

theorem matchCloseNs_length {l : List Char} {c : Char} {r : List Char}
    (h : matchCloseNs l = some (c, r)) : r.length < l.length := by
  match l with
  | [] => exact absurd h (by simp [matchCloseNs])
  | c0 :: rest =>
    simp only [matchCloseNs] at h
    split at h
    · have := matchNsTag_length h
      simp only [List.length_cons]
      omega
    · exact absurd h (by simp)

/-- `re.sub(r'<(reqif|r):([A-Z])', r'<\2', ...)`. -/
def subOpenTags : List Char → List Char
  | [] => []
  | c :: rest =>
    if c = '<' then
      match h : matchNsTag rest with
      | some p => '<' :: p.1 :: subOpenTags p.2
      | none => '<' :: subOpenTags rest
    else c :: subOpenTags rest
termination_by l => l.length
decreasing_by
  · have := matchNsTag_length h
    simp only [List.length_cons]
    omega
  · simp
  · simp

/-- `re.sub(r'</(reqif|r):([A-Z])', r'</\2', ...)`. -/
def subCloseTags : List Char → List Char
  | [] => []
  | c :: rest =>
    if c = '<' then
      match h : matchCloseNs rest with
      | some p => '<' :: '/' :: p.1 :: subCloseTags p.2
      | none => '<' :: subCloseTags rest
    else c :: subCloseTags rest
termination_by l => l.length
decreasing_by
  · have := matchCloseNs_length h
    simp only [List.length_cons]
    omega
  · simp
  · simp

def xmlnsLit : List Char := ['x', 'm', 'l', 'n', 's', '=', '"']

def reqIfLit : List Char := ['<', 'R', 'E', 'Q', '-', 'I', 'F']

/-- Scans for `xmlns="` with only non-`>` characters before it. -/
def afterGap : List Char → Bool
  | [] => false
  | c :: rest => xmlnsLit.isPrefixOf (c :: rest) || (c ≠ '>' && afterGap rest)

def gapMatch : List Char → Bool
  | [] => false
  | c :: rest => c ≠ '>' && afterGap rest

/-- `re.search(r'<REQ-IF[^>]+xmlns="', ...)` as a Boolean. -/
def hasDefaultXmlns : List Char → Bool
  | [] => false
  | c :: rest =>
    (reqIfLit.isPrefixOf (c :: rest) && gapMatch ((c :: rest).drop 7)) || hasDefaultXmlns rest

/-- The literal `xmlns:reqif=`. -/
def xmlnsNsLitLong : List Char := ['x', 'm', 'l', 'n', 's', ':', 'r', 'e', 'q', 'i', 'f', '=']

/-- The literal `xmlns:r=`. -/
def xmlnsNsLitShort : List Char := ['x', 'm', 'l', 'n', 's', ':', 'r', '=']

/-- `xmlns:(reqif|r)=` at the current position: remainder after the `=`. -/
def matchXmlnsNs (l : List Char) : Option (List Char) :=
  if xmlnsNsLitLong.isPrefixOf l then some (l.drop 12)
  else if xmlnsNsLitShort.isPrefixOf l then some (l.drop 8)
  else none

theorem matchXmlnsNs_length {l r : List Char} (h : matchXmlnsNs l = some r) :
    r.length ≤ l.length - 8 ∧ l ≠ [] := by
  unfold matchXmlnsNs at h
  split at h
  · rename_i hpre
    injection h with h
    subst h
    have hlen := List.IsPrefix.length_le ((List.isPrefixOf_iff_prefix).mp hpre)
    simp only [xmlnsNsLitLong, List.length_cons, List.length_nil] at hlen
    refine ⟨by simp only [List.length_drop]; omega, ?_⟩
    intro hnil
    subst hnil
    simp at hlen
  · split at h
    · rename_i hpre
      injection h with h
      subst h
      have hlen := List.IsPrefix.length_le ((List.isPrefixOf_iff_prefix).mp hpre)
      simp only [xmlnsNsLitShort, List.length_cons, List.length_nil] at hlen
      refine ⟨by simp only [List.length_drop]; omega, ?_⟩
      intro hnil
      subst hnil
      simp at hlen
    · exact absurd h (by simp)

/-- `re.sub(r'xmlns:(reqif|r)=', 'xmlns=', ...)`. -/
def subXmlnsDecls : List Char → List Char
  | [] => []
  | c :: rest =>
    match h : matchXmlnsNs (c :: rest) with
    | some rest2 => 'x' :: 'm' :: 'l' :: 'n' :: 's' :: '=' :: subXmlnsDecls rest2
    | none => c :: subXmlnsDecls rest
termination_by l => l.length
decreasing_by
  · have := matchXmlnsNs_length h
    simp only [List.length_cons] at this ⊢
    omega
  · simp

/-- `[^"]*"`: run to the first quote, then the remainder. -/
def afterQuote : List Char → Option (List Char)
  | [] => none
  | c :: rest => if c = '"' then some rest else afterQuote rest

/-- The literal `xmlns:reqif="`. -/
def nsAttrLitLong : List Char :=
  ['x', 'm', 'l', 'n', 's', ':', 'r', 'e', 'q', 'i', 'f', '=', '"']

/-- The literal `xmlns:r="`. -/
def nsAttrLitShort : List Char := ['x', 'm', 'l', 'n', 's', ':', 'r', '=', '"']

/-- `xmlns:(reqif|r)="[^"]*"` at the current position (alternation tries
`reqif` first, exactly like the regex). -/
def matchNsAttr (l : List Char) : Option (List Char) :=
  if nsAttrLitLong.isPrefixOf l then afterQuote (l.drop 13)
  else if nsAttrLitShort.isPrefixOf l then afterQuote (l.drop 9)
  else none

theorem afterQuote_length : ∀ {l r : List Char}, afterQuote l = some r → r.length < l.length
  | [], r, h => by simp [afterQuote] at h
  | c :: rest, r, h => by
    by_cases hc : c = '"'
    · simp [afterQuote, hc] at h
      subst h
      simp
    · simp only [afterQuote, if_neg hc] at h
      have := afterQuote_length h
      simp only [List.length_cons]
      omega

theorem matchNsAttr_length : ∀ {l r : List Char}, matchNsAttr l = some r → r.length < l.length := by
  intro l r h
  unfold matchNsAttr at h
  split at h
  · have h1 := afterQuote_length h
    have h2 : (l.drop 13).length ≤ l.length := by
      simp only [List.length_drop]
      omega
    omega
  · split at h
    · have h1 := afterQuote_length h
      have h2 : (l.drop 9).length ≤ l.length := by
        simp only [List.length_drop]
        omega
      omega
    · exact absurd h (by simp)

/-- `re.sub(r'\s+xmlns:(reqif|r)="[^"]*"', '', ...)`. -/
def removeNsDecls : List Char → List Char
  | [] => []
  | c :: rest =>
    if isPySpace c then
      match h : matchNsAttr ((c :: rest).dropWhile isPySpace) with
      | some rem => removeNsDecls rem
      | none => c :: removeNsDecls rest
    else c :: removeNsDecls rest
termination_by l => l.length
decreasing_by
  · have h1 := matchNsAttr_length h
    have h2 := dropWhile_len_le isPySpace (c :: rest)
    simp only [List.length_cons] at *
    omega
  · simp
  · simp

/-- Step 2 of the preprocessor: discard the text before the first XML
declaration marker, if any. -/
def declStep (l : List Char) : List Char := (cutFromDecl l).getD l

/-- Step 4 of the preprocessor: if a default xmlns already sits on a
`REQ-IF` tag, delete the prefixed xmlns declarations; otherwise rewrite
prefixed xmlns declarations into default ones. -/
def xmlnsStep (l : List Char) : List Char :=
  if hasDefaultXmlns l then removeNsDecls l else subXmlnsDecls l

/-- `preprocess_reqif_xml`: BOM strip, cut before the XML declaration,
namespace-prefix removal on tags, xmlns normalization. -/
def preprocess_reqif_xml (s : String) : String :=
  String.mk (xmlnsStep (subCloseTags (subOpenTags (declStep (stripBOM s.data)))))

/-! ## Concrete instances used by witnesses and counterexamples -/

/-- A bundle whose `core_content` is `None`. -/
def emptyBundle : Bundle := ⟨none, ⟨[]⟩⟩

/-- An external conversion that always rejects. -/
def convFailConst : Bundle → Except String (List DocDict) := fun _ => .error "boom"

/-! ## Claim C3: exception tolerance of the repair passes -/

/-- C3 (amended): each of the five repair passes catches an internal
exception instead of propagating it; when the failure occurs before any
mutation — here, when the bundle has no core content, so the very first
attribute access in the `try` block raises — the pass is a no-op,
returning the untouched bundle and an empty description list. (Mutations
applied before a mid-pass failure survive; see the counterexample.) -/
theorem passes_swallow_early_failure (mapF : String → String) (b : Bundle)
    (h : b.core_content = none) :
    fix_unsupported_attribute_types b = (b, []) ∧
      fix_missing_spec_type_names b = (b, []) ∧
      fix_duplicate_field_names mapF b = (b, []) ∧
      fix_empty_attribute_values b = (b, []) ∧
      fix_missing_spec_object_refs b = (b, []) := by
  have hc : contentOf b = none := by simp [contentOf, h]
  exact ⟨by simp [fix_unsupported_attribute_types, hc],
    by simp [fix_missing_spec_type_names, hc],
    by simp [fix_duplicate_field_names, hc],
    by simp [fix_empty_attribute_values, hc],
    by simp [fix_missing_spec_object_refs, hc]⟩

theorem passes_swallow_early_failure_witness :
    emptyBundle.core_content = none ∧
      (fix_unsupported_attribute_types emptyBundle = (emptyBundle, []) ∧
        fix_missing_spec_type_names emptyBundle = (emptyBundle, []) ∧
        fix_duplicate_field_names id emptyBundle = (emptyBundle, []) ∧
        fix_empty_attribute_values emptyBundle = (emptyBundle, []) ∧
        fix_missing_spec_object_refs emptyBundle = (emptyBundle, [])) :=
  ⟨rfl, passes_swallow_early_failure id emptyBundle rfl⟩

/-- Attribute definitions triggering a mid-pass exception in
`fix_duplicate_field_names`: the first two collide (so the second is
renamed in place), the third has display name `None`, on which the
field-title mapping result's `.upper()` raises. -/
def cexDupAttrs : List AttributeDefinition :=
  [⟨"AD1", some "a", .STRING⟩, ⟨"AD2", some "a", .STRING⟩, ⟨"AD3", none, .STRING⟩]

def cexDupBundle : Bundle :=
  ⟨some ⟨some ⟨some [⟨"ST", some "T", some cexDupAttrs⟩], none, none, none⟩⟩, ⟨[]⟩⟩

/-- C3 counterexample: on `cexDupBundle` the duplicate-rename pass hits an
internal exception (the `Except.error` of its body), yet the pass is not a
no-op: the bundle comes back mutated (the second attribute was already
renamed to "a_2") and the description list is non-empty. -/
theorem fix_duplicate_not_noop_on_failure_cex :
    (∃ p, fixDupTypes id [⟨"ST", some "T", some cexDupAttrs⟩] = .error p) ∧
      (fix_duplicate_field_names id cexDupBundle).1 ≠ cexDupBundle ∧
      (fix_duplicate_field_names id cexDupBundle).2 = ["a -> a_2"] := by
  refine ⟨⟨([⟨"ST", some "T",
      some [⟨"AD1", some "a", .STRING⟩, ⟨"AD2", some "a_2", .STRING⟩,
        ⟨"AD3", none, .STRING⟩]⟩], ["a -> a_2"]), rfl⟩, by decide, rfl⟩

/-! ## Claim C4: at most one repair-and-retry cycle -/

/-- C4: `convert_reqif_to_json` invokes the external schema conversion at
most twice; when the direct conversion fails and the repair passes report
no change, it performs no second invocation and returns a failed result
carrying the first conversion's error. -/
theorem convert_at_most_two_calls (mapF : String → String)
    (conv : Bundle → Except String (List DocDict)) (b : Bundle) :
    (convert_reqif_to_json mapF conv b).2.2 ≤ 2 ∧
      (((convert_bundle_to_json conv b []).success = false ∧
          (apply_workarounds mapF b).2 = []) →
        (convert_reqif_to_json mapF conv b).2.2 = 1 ∧
          (convert_reqif_to_json mapF conv b).1 =
            ⟨false, none, (convert_bundle_to_json conv b []).error, []⟩) := by
  constructor
  · unfold convert_reqif_to_json
    by_cases h1 : (convert_bundle_to_json conv b []).success
    · simp [h1]
    · simp only [h1, Bool.false_eq_true, if_false]
      by_cases h2 : (apply_workarounds mapF b).2.isEmpty
      · simp [h2]
      · simp only [h2, Bool.false_eq_true, if_false]
        by_cases h3 : (convert_bundle_to_json conv
            (apply_workarounds mapF b).1 (apply_workarounds mapF b).2).success <;>
          simp [h3]
  · rintro ⟨hf, hw⟩
    unfold convert_reqif_to_json
    simp [hf, hw]

/-! ## Claim C2: referential-integrity pruning -/

/-- All nodes of a forest, in depth-first order. -/
def collectNodes : List HNode → List HNode
  | [] => []
  | HNode.mk i so ch :: rest => HNode.mk i so ch :: (collectNodes ch ++ collectNodes rest)
termination_by l => sizeOf l

/-- Specification-side description of subtree pruning: the identifiers of
the nodes all of whose ancestors (and themselves) carry valid spec-object
references, in depth-first order; `ok` carries whether the ancestor path
so far is intact. -/
def validPathIds (valid : List String) (ok : Bool) : List HNode → List String
  | [] => []
  | HNode.mk i so ch :: rest =>
    (if ok && decide (so ∈ valid) then [i] else []) ++
      validPathIds valid (ok && decide (so ∈ valid)) ch ++ validPathIds valid ok rest
termination_by l => sizeOf l

/-- Python dict lookup on the association-list model. -/
def lookupVal : List (String × List String) → String → Option (List String)
  | [], _ => none
  | (k, ts) :: rest, s => if k = s then some ts else lookupVal rest s

/-- The targets of the relations with the given source, in order. -/
def relTargets : List SpecRelation → String → List String
  | [], _ => []
  | r :: rest, s => if r.source = s then r.target :: relTargets rest s else relTargets rest s

theorem validPathIds_false (valid : List String) :
    ∀ ns : List HNode, validPathIds valid false ns = []
  | [] => by simp [validPathIds]
  | HNode.mk i so ch :: rest => by
    rw [validPathIds]
    simp only [Bool.false_and]
    rw [validPathIds_false valid ch, validPathIds_false valid rest]
    simp
termination_by ns => sizeOf ns

theorem filterNodes_sound (valid : List String) :
    ∀ ns : List HNode, ∀ n ∈ collectNodes (filterNodes valid ns).1, n.spec_object ∈ valid
  | [] => by simp [filterNodes, collectNodes]
  | HNode.mk i so ch :: rest => by
    intro n hn
    by_cases hso : so ∈ valid
    · rw [filterNodes] at hn
      simp only [if_pos hso] at hn
      rw [collectNodes] at hn
      simp only [List.mem_cons, List.mem_append] at hn
      rcases hn with hn | hn | hn
      · subst hn
        simpa [HNode.spec_object] using hso
      · exact filterNodes_sound valid ch n hn
      · exact filterNodes_sound valid rest n hn
    · rw [filterNodes] at hn
      simp only [if_neg hso] at hn
      exact filterNodes_sound valid rest n hn
termination_by ns => sizeOf ns

theorem filterNodes_ids (valid : List String) :
    ∀ ns : List HNode,
      (collectNodes (filterNodes valid ns).1).map HNode.identifier =
        validPathIds valid true ns
  | [] => by simp [filterNodes, collectNodes, validPathIds]
  | HNode.mk i so ch :: rest => by
    by_cases hso : so ∈ valid
    · rw [filterNodes]
      simp only [if_pos hso]
      rw [collectNodes, validPathIds]
      simp only [List.map_cons, List.map_append]
      rw [filterNodes_ids valid ch, filterNodes_ids valid rest]
      simp [hso, HNode.identifier]
    · rw [filterNodes]
      simp only [if_neg hso]
      rw [validPathIds]
      rw [filterNodes_ids valid rest]
      simp [hso, validPathIds_false]
termination_by ns => sizeOf ns

theorem filterSpecs_sound (valid : List String) :
    ∀ specs : List Specification, ∀ sp ∈ (filterSpecs valid specs).1,
      ∀ n ∈ collectNodes sp.children, n.spec_object ∈ valid := by
  intro specs
  induction specs with
  | nil => simp [filterSpecs]
  | cons sp rest ih =>
    intro sp' hsp' n hn
    simp only [filterSpecs, List.mem_cons] at hsp'
    rcases hsp' with h | h
    · subst h
      cases hch : sp.children with
      | nil =>
        simp only [hch] at hn
        simp [collectNodes] at hn
      | cons n0 ns =>
        simp only [hch] at hn
        exact filterNodes_sound valid (n0 :: ns) n hn
    · exact ih sp' h n hn

theorem filterSpecs_ids (valid : List String) :
    ∀ specs : List Specification,
      List.Forall₂
        (fun sp sp' => sp'.identifier = sp.identifier ∧
          (collectNodes sp'.children).map HNode.identifier =
            validPathIds valid true sp.children)
        specs (filterSpecs valid specs).1 := by
  intro specs
  induction specs with
  | nil => simp [filterSpecs]
  | cons sp rest ih =>
    simp only [filterSpecs]
    refine List.Forall₂.cons ⟨?_, ?_⟩ ih
    · cases hch : sp.children <;> simp [hch]
    · cases hch : sp.children with
      | nil => simp [hch, collectNodes, validPathIds]
      | cons n0 ns =>
        simp only [hch]
        exact filterNodes_ids valid (n0 :: ns)

theorem pruneSpecs_sound (valid : List String) (o : Option (List Specification)) :
    ∀ sp ∈ ((pruneSpecs valid o).1.getD []), ∀ n ∈ collectNodes sp.children,
      n.spec_object ∈ valid := by
  match o with
  | none => simp [pruneSpecs]
  | some [] => simp [pruneSpecs]
  | some (sp0 :: specs) =>
    simp only [pruneSpecs, Option.getD_some]
    exact filterSpecs_sound valid (sp0 :: specs)

theorem pruneSpecs_ids (valid : List String) (o : Option (List Specification)) :
    List.Forall₂
      (fun sp sp' => sp'.identifier = sp.identifier ∧
        (collectNodes sp'.children).map HNode.identifier =
          validPathIds valid true sp.children)
      (o.getD []) ((pruneSpecs valid o).1.getD []) := by
  match o with
  | none => simp [pruneSpecs]
  | some [] => simp [pruneSpecs]
  | some (sp0 :: specs) =>
    simp only [pruneSpecs, Option.getD_some]
    exact filterSpecs_ids valid (sp0 :: specs)

theorem relKeep_sound (validRefs validTypes : List String) (r : SpecRelation)
    (h : relKeep validRefs validTypes r = true) :
    r.source ∈ validRefs ∧ r.target ∈ validRefs ∧
      (∀ t, r.relation_type_ref = some t → t ≠ "" → t ∈ validTypes) := by
  unfold relKeep at h
  cases hrt : r.relation_type_ref with
  | none =>
    rw [hrt] at h
    simp only [Bool.and_true, Bool.and_eq_true, decide_eq_true_eq] at h
    exact ⟨h.1, h.2, fun t ht => nomatch ht⟩
  | some t0 =>
    rw [hrt] at h
    simp only [Bool.and_eq_true, Bool.or_eq_true, decide_eq_true_eq] at h
    refine ⟨h.1.1, h.1.2, ?_⟩
    intro t ht hne
    injection ht with ht
    subst ht
    rcases h.2 with h2 | h2
    · exact absurd h2 hne
    · exact h2

theorem pruneRels_sound (validRefs validTypes : List String)
    (o : Option (List SpecRelation)) :
    ∀ r ∈ ((pruneRels validRefs validTypes o).1.getD []),
      r.source ∈ validRefs ∧ r.target ∈ validRefs ∧
        (∀ t, r.relation_type_ref = some t → t ≠ "" → t ∈ validTypes) := by
  match o with
  | none => simp [pruneRels]
  | some [] => simp [pruneRels]
  | some (r0 :: rels) =>
    intro r hr
    simp only [pruneRels, Option.getD_some] at hr
    rw [List.mem_filter] at hr
    exact relKeep_sound validRefs validTypes r hr.2

theorem lookupVal_addLookup (l : List (String × List String)) (src tgt s : String) :
    lookupVal (addLookup l src tgt) s =
      if src = s then
        match lookupVal l s with
        | some ts => some (ts ++ [tgt])
        | none => some [tgt]
      else lookupVal l s := by
  induction l with
  | nil => by_cases h : src = s <;> simp [addLookup, lookupVal, h]
  | cons p rest ih =>
    obtain ⟨k, ts⟩ := p
    by_cases hksrc : k = src
    · subst hksrc
      simp only [addLookup, if_pos rfl]
      by_cases hks : k = s
      · subst hks
        simp [lookupVal]
      · have hsk : ¬ k = s := hks
        simp [lookupVal, hsk, fun h => hks (h : k = s)]
    · simp only [addLookup, if_neg hksrc]
      by_cases hks : k = s
      · subst hks
        have hsrc : ¬ src = k := fun h => hksrc h.symm
        simp [lookupVal, hsrc]
      · simp only [lookupVal, if_neg hks]
        exact ih

theorem buildLookup_spec :
    ∀ (rels : List SpecRelation) (acc : List (String × List String)) (s : String),
      lookupVal (buildLookup acc rels) s =
        match lookupVal acc s with
        | some ts => some (ts ++ relTargets rels s)
        | none =>
          if relTargets rels s = [] then none else some (relTargets rels s) := by
  intro rels
  induction rels with
  | nil =>
    intro acc s
    simp only [buildLookup, relTargets]
    cases lookupVal acc s <;> simp
  | cons r rest ih =>
    intro acc s
    simp only [buildLookup]
    rw [ih, lookupVal_addLookup]
    by_cases hsrc : r.source = s
    · simp only [relTargets, if_pos hsrc, if_pos rfl]
      cases lookupVal acc s <;> simp
    · simp only [relTargets, if_neg hsrc]

theorem relsForLookup_getD (o : Option (List SpecRelation)) :
    relsForLookup o = o.getD [] := by
  match o with
  | none => rfl
  | some [] => rfl
  | some (r :: rels) => rfl

/-- The conclusion of claim C2, as a predicate on the original bundle and
its content: after the pass, spec objects and spec types are untouched,
every surviving hierarchy node and relation refers only to valid
identifiers, the surviving hierarchy of each specification is exactly the
valid-ancestor-path portion of the original one (pruning is by subtree),
and the rebuilt reverse lookup mirrors the surviving relations. -/
def refsClosure (b : Bundle) (c : ReqIFContent) : Prop :=
  ∃ c', contentOf (fix_missing_spec_object_refs b).1 = some c' ∧
    c'.spec_objects = c.spec_objects ∧
    c'.spec_types = c.spec_types ∧
    (∀ sp ∈ c'.specifications.getD [], ∀ n ∈ collectNodes sp.children,
      n.spec_object ∈ (c.spec_objects.getD []).map SpecObject.identifier) ∧
    (∀ r ∈ c'.spec_relations.getD [],
      r.source ∈ (c.spec_objects.getD []).map SpecObject.identifier ∧
        r.target ∈ (c.spec_objects.getD []).map SpecObject.identifier ∧
        (∀ t, r.relation_type_ref = some t → t ≠ "" →
          t ∈ (c.spec_types.getD []).map SpecType.identifier)) ∧
    List.Forall₂
      (fun sp sp' => sp'.identifier = sp.identifier ∧
        (collectNodes sp'.children).map HNode.identifier =
          validPathIds ((c.spec_objects.getD []).map SpecObject.identifier) true
            sp.children)
      (c.specifications.getD []) (c'.specifications.getD []) ∧
    (∀ s, lookupVal (fix_missing_spec_object_refs b).1.lookup.spec_relations_parent_lookup s =
      if relTargets (c'.spec_relations.getD []) s = [] then none
      else some (relTargets (c'.spec_relations.getD []) s))

/-- C2: the referential-integrity pass leaves every surviving reference
resolvable, removes pruned subtrees whole, and rebuilds the reverse index
to mirror exactly the surviving relations. -/
theorem fix_missing_refs_closure (b : Bundle) (c : ReqIFContent)
    (hc : contentOf b = some c) : refsClosure b c := by
  unfold refsClosure
  unfold fix_missing_spec_object_refs
  rw [hc]
  simp only
  refine ⟨_, rfl, rfl, rfl, ?_, ?_, ?_, ?_⟩
  · exact pruneSpecs_sound _ c.specifications
  · exact pruneRels_sound _ _ c.spec_relations
  · exact pruneSpecs_ids _ c.specifications
  · intro s
    simp only [setContent]
    rw [relsForLookup_getD]
    rw [buildLookup_spec]
    simp [lookupVal]

/-- Witness content for C2: one dangling hierarchy node (whose subtree
contains a valid node) and one dangling relation. -/
def w2content : ReqIFContent :=
  { spec_types := some [⟨"T1", some "Type", none⟩]
    spec_objects := some [⟨"SO1", []⟩]
    specifications :=
      some [⟨"SPEC", [HNode.mk "N1" "SO1" [HNode.mk "N2" "SOX" [HNode.mk "N3" "SO1" []]]]⟩]
    spec_relations := some [⟨"R1", "SO1", "SO1", none⟩, ⟨"R2", "SO1", "SOX", none⟩] }

def w2bundle : Bundle := ⟨some ⟨some w2content⟩, ⟨[("stale", ["x"])]⟩⟩

theorem fix_missing_refs_closure_witness :
    contentOf w2bundle = some w2content ∧ refsClosure w2bundle w2content :=
  ⟨rfl, fix_missing_refs_closure w2bundle w2content rfl⟩

/-! ## Claims C8 and C9: attachment extraction -/

theorem string_data_append (a b : String) : (a ++ b).data = a.data ++ b.data := by
  cases a
  cases b
  rfl

theorem string_append_cancel {p a b : String} (h : p ++ a = p ++ b) : a = b := by
  have hd := congrArg String.data h
  rw [string_data_append, string_data_append] at hd
  have hab := List.append_cancel_left hd
  cases a
  cases b
  exact congrArg String.mk hab

/-- Everything extracted or written comes from the attachment map. -/
theorem extract_sources (fs : String → List Nat → Except String Unit) :
    ∀ atts : List (String × List Nat),
      (∀ n ∈ (extractAttachments fs atts).2.1, n ∈ atts.map Prod.fst) ∧
      (∀ s ∈ (extractAttachments fs atts).1,
        ∃ m ∈ atts.map Prod.fst, s = "attachments/" ++ m) := by
  intro atts
  induction atts with
  | nil => simp [extractAttachments]
  | cons p rest ih =>
    obtain ⟨name, dat⟩ := p
    by_cases hskip : dat = [] ∨ name.data.getLast? = some '/'
    · rw [extractAttachments, if_pos (by simpa using hskip)]
      constructor
      · intro n hn
        exact List.mem_cons_of_mem _ (ih.1 n hn)
      · intro s hs
        obtain ⟨m, hm, he⟩ := ih.2 s hs
        exact ⟨m, List.mem_cons_of_mem _ hm, he⟩
    · rw [extractAttachments, if_neg (by simpa using hskip)]
      cases hfs : fs name dat with
      | ok u =>
        simp only [List.map_cons]
        constructor
        · intro n hn
          simp only [List.mem_cons] at hn ⊢
          rcases hn with h | h
          · exact Or.inl h
          · exact Or.inr (ih.1 n h)
        · intro s hs
          simp only [List.mem_cons] at hs
          rcases hs with h | h
          · exact ⟨name, List.mem_cons_self .., h⟩
          · obtain ⟨m, hm, he⟩ := ih.2 s h
            exact ⟨m, List.mem_cons_of_mem _ hm, he⟩
      | error m => simp

/-- C9: a directory-marker entry (name ending in "/") or an entry with an
empty payload is skipped: it is never written and never appears among the
extracted attachment paths. -/
theorem extract_skips_markers (fs : String → List Nat → Except String Unit)
    (atts : List (String × List Nat)) (hnd : (atts.map Prod.fst).Nodup)
    (n : String) (d : List Nat) (hmem : (n, d) ∈ atts)
    (hskip : d = [] ∨ n.data.getLast? = some '/') :
    n ∉ (extractAttachments fs atts).2.1 ∧
      ("attachments/" ++ n) ∉ (extractAttachments fs atts).1 := by
  induction atts with
  | nil => cases hmem
  | cons p rest ih =>
    obtain ⟨name, dat⟩ := p
    simp only [List.map_cons, List.nodup_cons] at hnd
    obtain ⟨hnin, hnd'⟩ := hnd
    simp only [List.mem_cons] at hmem
    rcases hmem with heq | hmem
    · have hn : n = name := congrArg Prod.fst heq
      have hd : d = dat := congrArg Prod.snd heq
      subst hn
      subst hd
      rw [extractAttachments, if_pos (by simpa using hskip)]
      constructor
      · intro hcon
        exact hnin (extract_sources fs rest |>.1 n hcon)
      · intro hcon
        obtain ⟨m, hm, he⟩ := (extract_sources fs rest).2 _ hcon
        exact hnin (string_append_cancel he ▸ hm)
    · have hne : n ≠ name := by
        intro he
        subst he
        exact hnin (List.mem_map_of_mem Prod.fst hmem)
      by_cases hskipHead : dat = [] ∨ name.data.getLast? = some '/'
      · rw [extractAttachments, if_pos (by simpa using hskipHead)]
        exact ih hnd' hmem
      · rw [extractAttachments, if_neg (by simpa using hskipHead)]
        cases hfs : fs name dat with
        | ok u =>
          have hrec := ih hnd' hmem
          constructor
          · simp only [List.mem_cons]
            rintro (h | h)
            · exact hne h
            · exact hrec.1 h
          · simp only [List.mem_cons]
            rintro (h | h)
            · exact hne (string_append_cancel h)
            · exact hrec.2 h
        | error m => simp

/-- C9 witness attachments: a directory marker, an empty payload, and a
real attachment. -/
def w9atts : List (String × List Nat) := [("dir/", [1]), ("empty.bin", []), ("a.png", [7])]

def fsOkConst : String → List Nat → Except String Unit := fun _ _ => .ok ()

theorem extract_skips_markers_witness :
    ((w9atts.map Prod.fst).Nodup ∧ ("dir/", [1]) ∈ w9atts ∧
        (([1] : List Nat) = [] ∨ "dir/".data.getLast? = some '/')) ∧
      ("dir/" ∉ (extractAttachments fsOkConst w9atts).2.1 ∧
        ("attachments/" ++ "dir/") ∉ (extractAttachments fsOkConst w9atts).1) :=
  ⟨⟨by decide, by decide, by decide⟩,
    extract_skips_markers fsOkConst w9atts (by decide) "dir/" [1] (by decide) (by decide)⟩

/-- C8 (amended): a write failure while extracting an attachment is not
isolated: the exception reaches the function's outer handler, which turns
the whole archive call into a single `Archive error:` failure; attachments
written before the failing one remain on disk, later ones are never
attempted, and the documents of already-converted members are discarded
from the result. -/
theorem archive_write_failure_aborts (mapF : String → String)
    (conv : Bundle → Except String (List DocDict))
    (fs : String → List Nat → Except String Unit) (arch : Archive)
    (ex wr : List String) (m : String)
    (hatt : arch.attachments ≠ [])
    (hext : extractAttachments fs arch.attachments = (ex, wr, some m)) :
    (process_reqifz_file mapF conv fs arch).1 =
      ⟨false, none, some ("Archive error: " ++ pyTake m 300), []⟩ ∧
      (process_reqifz_file mapF conv fs arch).2 = wr := by
  unfold process_reqifz_file
  cases hatts : arch.attachments with
  | nil => exact absurd hatts hatt
  | cons a rest =>
    rw [hatts] at hext
    simp [hext]

/-- C8 witness: one failing write. -/
def w8arch : Archive := ⟨[], [("a.png", [1])]⟩

def fsFailConst : String → List Nat → Except String Unit := fun _ _ => .error "disk full"

theorem archive_write_failure_aborts_witness :
    (w8arch.attachments ≠ [] ∧
        extractAttachments fsFailConst w8arch.attachments = ([], [], some "disk full")) ∧
      ((process_reqifz_file id convFailConst fsFailConst w8arch).1 =
          ⟨false, none, some ("Archive error: " ++ pyTake "disk full" 300), []⟩ ∧
        (process_reqifz_file id convFailConst fsFailConst w8arch).2 = []) :=
  ⟨⟨by decide, rfl⟩,
    archive_write_failure_aborts id convFailConst fsFailConst w8arch [] [] "disk full"
      (by decide) rfl⟩

/-- A conversion oracle that always succeeds with one document. -/
def convOkConst : Bundle → Except String (List DocDict) := fun _ => .ok [⟨"doc1", none⟩]

/-- C8 counterexample archive: a member that converts fine, plus two
well-formed attachments of which the first fails to write. -/
def cexC8arch : Archive := ⟨[("m1", emptyBundle)], [("a.png", [1]), ("b.png", [2])]⟩

def fsFailOnA : String → List Nat → Except String Unit := fun n _ =>
  if n = "a.png" then .error "disk full" else .ok ()

/-- C8 counterexample: the write failure on "a.png" aborts everything:
although the only member produced documents and "b.png" would have been
written fine, the archive call fails with `Archive error:`, nothing is
recorded as written, and the member's documents are gone. -/
theorem attachment_failure_not_isolated_cex :
    (convert_reqif_to_json id convOkConst emptyBundle).1.success = true ∧
      (process_reqifz_file id convOkConst fsFailOnA cexC8arch).1 =
        ⟨false, none, some "Archive error: disk full", []⟩ ∧
      (process_reqifz_file id convOkConst fsFailOnA cexC8arch).2 = [] :=
  ⟨rfl, rfl, rfl⟩

/-! ## Claims C5 and C10: archive aggregation -/

/-- The conversion result of one archive member. -/
def memberRes (mapF : String → String) (conv : Bundle → Except String (List DocDict))
    (p : String × Bundle) : ConversionResult :=
  (convert_reqif_to_json mapF conv p.2).1

/-- `result.success and result.data` (the member-loop guard). -/
def memberOk (r : ConversionResult) : Bool := r.success && r.data.isSome

def docsOf (r : ConversionResult) : List DocDict :=
  match r.data with
  | some d => d.documents
  | none => []

/-- The per-member error strings, one per failed member, in member order. -/
def archiveErrs (mapF : String → String) (conv : Bundle → Except String (List DocDict))
    (members : List (String × Bundle)) : List String :=
  (members.filter (fun p => !(memberOk (memberRes mapF conv p)))).map
    (fun p => "[" ++ p.1 ++ "] " ++ pyOptStr (memberRes mapF conv p).error)

theorem processMembers_spec (mapF : String → String)
    (conv : Bundle → Except String (List DocDict)) :
    ∀ members : List (String × Bundle),
      processMembers mapF conv members =
        (members.bind (fun p =>
            if memberOk (memberRes mapF conv p) then
              (docsOf (memberRes mapF conv p)).map (setSource p.1)
            else []),
          members.bind (fun p =>
            (memberRes mapF conv p).workarounds_applied.map
              (fun w => "[" ++ p.1 ++ "] " ++ w)),
          archiveErrs mapF conv members) := by
  intro members
  induction members with
  | nil => simp [processMembers, archiveErrs]
  | cons p rest ih =>
    obtain ⟨name, b⟩ := p
    cases hs : (convert_reqif_to_json mapF conv b).1.success with
    | false =>
      cases hd : (convert_reqif_to_json mapF conv b).1.data <;>
        simp [processMembers, memberRes, memberOk, docsOf, archiveErrs, hs, hd, ih]
    | true =>
      cases hd : (convert_reqif_to_json mapF conv b).1.data with
      | none => simp [processMembers, memberRes, memberOk, docsOf, archiveErrs, hs, hd, ih]
      | some d => simp [processMembers, memberRes, memberOk, docsOf, archiveErrs, hs, hd, ih]

theorem convert_bundle_success_docs (conv : Bundle → Except String (List DocDict))
    (b : Bundle) (ws : List String)
    (h : (convert_bundle_to_json conv b ws).success = true) :
    ∃ d, (convert_bundle_to_json conv b ws).data = some d ∧ d.documents ≠ [] := by
  unfold convert_bundle_to_json at h ⊢
  cases hcv : conv b with
  | error e => rw [hcv] at h; simp at h
  | ok docs =>
    cases docs with
    | nil => rw [hcv] at h; simp at h
    | cons d0 ds =>
      exact ⟨_, rfl, by simp⟩

theorem convert_reqif_success_docs (mapF : String → String)
    (conv : Bundle → Except String (List DocDict)) (b : Bundle)
    (h : (convert_reqif_to_json mapF conv b).1.success = true) :
    ∃ d, (convert_reqif_to_json mapF conv b).1.data = some d ∧ d.documents ≠ [] := by
  unfold convert_reqif_to_json at h ⊢
  by_cases h1 : (convert_bundle_to_json conv b []).success
  · simp only [h1, if_true] at h ⊢
    exact convert_bundle_success_docs conv b [] h1
  · simp only [h1, Bool.false_eq_true, if_false] at h ⊢
    by_cases h2 : (apply_workarounds mapF b).2.isEmpty
    · simp only [h2, if_true] at h
      exact Bool.noConfusion h
    · simp only [h2, Bool.false_eq_true, if_false] at h ⊢
      by_cases h3 : (convert_bundle_to_json conv
          (apply_workarounds mapF b).1 (apply_workarounds mapF b).2).success
      · simp only [h3, if_true] at h ⊢
        exact convert_bundle_success_docs _ _ _ h3
      · simp only [h3, Bool.false_eq_true, if_false] at h

theorem extract_ok_of_fs_ok (fs : String → List Nat → Except String Unit)
    (hfs : ∀ n d, fs n d = .ok ()) :
    ∀ atts, (extractAttachments fs atts).2.2 = none := by
  intro atts
  induction atts with
  | nil => rfl
  | cons p rest ih =>
    obtain ⟨name, dat⟩ := p
    rw [extractAttachments]
    by_cases hskip : dat = [] ∨ name.data.getLast? = some '/'
    · rw [if_pos (by simpa using hskip)]
      exact ih
    · rw [if_neg (by simpa using hskip)]
      rw [hfs name dat]
      simpa using ih

theorem bind_ne_nil_of_mem {α β : Type} {l : List α} {f : α → List β} {p : α}
    (hp : p ∈ l) (hf : f p ≠ []) : l.bind f ≠ [] := by
  obtain ⟨x, hx⟩ := List.exists_mem_of_ne_nil _ hf
  exact List.ne_nil_of_mem (List.mem_bind.mpr ⟨p, hp, hx⟩)

/-- The conclusion of claim C5 (amended). -/
def archiveAggProp (mapF : String → String) (conv : Bundle → Except String (List DocDict))
    (fs : String → List Nat → Except String Unit) (arch : Archive) : Prop :=
  ((process_reqifz_file mapF conv fs arch).1.success = true ↔
      ∃ p ∈ arch.reqif_bundles, memberOk (memberRes mapF conv p) = true) ∧
    (processMembers mapF conv arch.reqif_bundles).2.2 =
      archiveErrs mapF conv arch.reqif_bundles ∧
    ((process_reqifz_file mapF conv fs arch).1.success = false →
      (process_reqifz_file mapF conv fs arch).1.error =
        some (if archiveErrs mapF conv arch.reqif_bundles = [] then "No documents found"
          else String.intercalate "; " (archiveErrs mapF conv arch.reqif_bundles)))

/-- C5 (amended): provided attachment extraction raises no I/O error, a
member's conversion failure never aborts the others: the aggregate result
is successful iff some member converted successfully, each failed member
contributes exactly one "[member] error" string, and a total failure
reports those strings joined with "; " — or the fixed message
"No documents found" when the archive had no members to collect errors
from. -/
theorem archive_partial_failure (mapF : String → String)
    (conv : Bundle → Except String (List DocDict))
    (fs : String → List Nat → Except String Unit) (arch : Archive)
    (hfs : ∀ n d, fs n d = Except.ok ()) : archiveAggProp mapF conv fs arch := by
  have hpm := processMembers_spec mapF conv arch.reqif_bundles
  have hdocs1 : (processMembers mapF conv arch.reqif_bundles).1 =
      arch.reqif_bundles.bind (fun p =>
        if memberOk (memberRes mapF conv p) then
          (docsOf (memberRes mapF conv p)).map (setSource p.1)
        else []) := by rw [hpm]
  have herrs : (processMembers mapF conv arch.reqif_bundles).2.2 =
      archiveErrs mapF conv arch.reqif_bundles := by rw [hpm]
  have haerr : (match arch.attachments with
      | [] => (([], [], none) : List String × List String × Option String)
      | atts => extractAttachments fs atts).2.2 = none := by
    cases arch.attachments with
    | nil => rfl
    | cons a rest => exact extract_ok_of_fs_ok fs hfs (a :: rest)
  have hdocs_iff : ((processMembers mapF conv arch.reqif_bundles).1 ≠ [] ↔
      ∃ p ∈ arch.reqif_bundles, memberOk (memberRes mapF conv p) = true) := by
    rw [hdocs1]
    constructor
    · intro hne
      obtain ⟨x, hx⟩ := List.exists_mem_of_ne_nil _ hne
      obtain ⟨p, hp, hxp⟩ := List.mem_bind.mp hx
      refine ⟨p, hp, ?_⟩
      by_contra hok
      rw [if_neg (by simpa using hok)] at hxp
      cases hxp
    · rintro ⟨p, hp, hok⟩
      refine bind_ne_nil_of_mem hp ?_
      rw [if_pos hok]
      have hsucc : (memberRes mapF conv p).success = true := by
        have := hok
        unfold memberOk at this
        exact (Bool.and_eq_true ..).mp this |>.1
      obtain ⟨d, hd, hdocs⟩ := convert_reqif_success_docs mapF conv p.2 hsucc
      have : docsOf (memberRes mapF conv p) = d.documents := by
        unfold docsOf memberRes
        rw [show (convert_reqif_to_json mapF conv p.2).1.data = some d from hd]
      rw [this]
      simpa using hdocs
  unfold archiveAggProp
  unfold process_reqifz_file
  simp only []
  rw [haerr]
  refine ⟨?_, herrs, ?_⟩
  · cases hd : (processMembers mapF conv arch.reqif_bundles).1 with
    | nil =>
      simp only []
      constructor
      · intro hfalse
        cases hfalse
      · intro hex
        exact absurd hd ((hdocs_iff.mpr hex))
    | cons a as =>
      simp only []
      constructor
      · intro _
        exact hdocs_iff.mp (by rw [hd]; simp)
      · intro _
        trivial
  · cases hd : (processMembers mapF conv arch.reqif_bundles).1 with
    | nil =>
      intro _
      simp only []
      rw [herrs]
    | cons a as =>
      intro hfalse
      cases hfalse

/-- C5 witness: one failing and one succeeding member, no attachments. -/
def w5arch : Archive := ⟨[("bad", ⟨some ⟨none⟩, ⟨[]⟩⟩), ("good", emptyBundle)], []⟩

def w5conv : Bundle → Except String (List DocDict) := fun b =>
  match b.core_content with
  | some ⟨none⟩ => .error "broken member"
  | _ => .ok [⟨"doc", none⟩]

theorem archive_partial_failure_witness :
    (∀ n d, fsOkConst n d = Except.ok ()) ∧ archiveAggProp id w5conv fsOkConst w5arch :=
  ⟨fun _ _ => rfl, archive_partial_failure id w5conv fsOkConst w5arch (fun _ _ => rfl)⟩

/-- C5 counterexample: for the archive with no members, the failure error
is the fixed message "No documents found", not the join of the (empty)
collected per-member errors. -/
theorem archive_error_join_cex :
    (process_reqifz_file id convFailConst fsOkConst ⟨[], []⟩).1 =
      ⟨false, none, some "No documents found", []⟩ ∧
      "No documents found" ≠ String.intercalate "; " [] :=
  ⟨rfl, by decide⟩

/-- Helper for C10: whenever the aggregate call produces data, that data's
workaround list is the member loop's tagged workaround list. -/
theorem process_data_workarounds (mapF : String → String)
    (conv : Bundle → Except String (List DocDict))
    (fs : String → List Nat → Except String Unit) (arch : Archive) (d : JsonData)
    (hd : (process_reqifz_file mapF conv fs arch).1.data = some d) :
    d.workarounds = (processMembers mapF conv arch.reqif_bundles).2.1 := by
  unfold process_reqifz_file at hd
  simp only [] at hd
  cases haerr : (match arch.attachments with
      | [] => (([], [], none) : List String × List String × Option String)
      | atts => extractAttachments fs atts).2.2 with
  | some m =>
    rw [haerr] at hd
    simp at hd
  | none =>
    rw [haerr] at hd
    cases hdocs : (processMembers mapF conv arch.reqif_bundles).1 with
    | nil =>
      rw [hdocs] at hd
      simp at hd
    | cons a as =>
      rw [hdocs] at hd
      simp only [Option.some.injEq] at hd
      exact congrArg JsonData.workarounds hd.symm

/-- C10: when the aggregate result is successful, its `_WORKAROUNDS_APPLIED`
list contains the member-tagged description of every workaround any member
applied — members whose conversion ultimately failed included. -/
theorem aggregate_workarounds_complete (mapF : String → String)
    (conv : Bundle → Except String (List DocDict))
    (fs : String → List Nat → Except String Unit) (arch : Archive) (d : JsonData)
    (hs : (process_reqifz_file mapF conv fs arch).1.success = true)
    (hd : (process_reqifz_file mapF conv fs arch).1.data = some d)
    (n : String) (b : Bundle) (hm : (n, b) ∈ arch.reqif_bundles) (w : String)
    (hw : w ∈ (convert_reqif_to_json mapF conv b).1.workarounds_applied) :
    ("[" ++ n ++ "] " ++ w) ∈ d.workarounds := by
  rw [process_data_workarounds mapF conv fs arch d hd]
  rw [processMembers_spec mapF conv arch.reqif_bundles]
  exact List.mem_bind.mpr ⟨(n, b), hm, List.mem_map_of_mem _ hw⟩

/-- C10 witness member: a spec type with a blank display name; the oracle
rejects until the missing-name pass fills it in, so the member converts
only on the retry, with one workaround applied. -/
def w10bundle : Bundle := ⟨some ⟨some ⟨some [⟨"T1", none, none⟩], none, none, none⟩⟩, ⟨[]⟩⟩

def w10conv : Bundle → Except String (List DocDict) := fun b =>
  match contentOf b with
  | some c =>
    match c.spec_types with
    | some [st] => if blankName st.long_name then .error "missing name" else .ok [⟨"D", none⟩]
    | _ => .error "bad"
  | none => .error "bad"

def w10arch : Archive := ⟨[("m", w10bundle)], []⟩

def w10data : JsonData :=
  ⟨"Normalized via StrictDoc.", [⟨"D", some "m"⟩],
    ["[m] Added default names to 1 spec types"], some [], []⟩

theorem aggregate_workarounds_complete_witness :
    ((process_reqifz_file id w10conv fsOkConst w10arch).1.success = true ∧
        (process_reqifz_file id w10conv fsOkConst w10arch).1.data = some w10data ∧
        ("m", w10bundle) ∈ w10arch.reqif_bundles ∧
        "Added default names to 1 spec types" ∈
          (convert_reqif_to_json id w10conv w10bundle).1.workarounds_applied) ∧
      ("[" ++ "m" ++ "] " ++ "Added default names to 1 spec types") ∈ w10data.workarounds :=
  ⟨⟨rfl, rfl, by decide, by decide⟩,
    aggregate_workarounds_complete id w10conv fsOkConst w10arch w10data rfl rfl
      "m" w10bundle (by decide) "Added default names to 1 spec types" (by decide)⟩

/-! ## Claim C6: link count of the hierarchy flattener -/

theorem nodes_len_le_count : ∀ ns : List JNode, ns.length ≤ countJNodes ns
  | [] => by simp [countJNodes]
  | JNode.mk f ch :: rest => by
    rw [countJNodes]
    have := nodes_len_le_count rest
    simp only [List.length_cons]
    omega
termination_by ns => sizeOf ns

theorem flattenGo_type_hierarchy :
    ∀ (parent : String) (ns : List JNode), ∀ l ∈ (flattenGo parent ns).2,
      l.type = "hierarchy"
  | parent, [] => by simp [flattenGo]
  | parent, JNode.mk f ch :: rest => by
    intro l hl
    rw [flattenGo] at hl
    simp only [List.mem_append] at hl
    rcases hl with (hl | hl) | hl
    · by_cases hq : parent ≠ "" ∧ jGet (JNode.mk f ch) "UID" ≠ ""
      · rw [if_pos hq] at hl
        simp only [List.mem_singleton] at hl
        subst hl
        rfl
      · rw [if_neg hq] at hl
        cases hl
    · exact flattenGo_type_hierarchy (jGet (JNode.mk f ch) "UID") ch l hl
    · exact flattenGo_type_hierarchy parent rest l hl
termination_by _ ns => sizeOf ns

theorem flattenGo_links_count :
    ∀ (parent : String) (ns : List JNode), allUidsPresent ns = true →
      (flattenGo parent ns).2.length =
        if parent = "" then countJNodes ns - ns.length else countJNodes ns
  | parent, [] => by
    intro _
    simp [flattenGo, countJNodes]
  | parent, JNode.mk f ch :: rest => by
    intro hau
    rw [allUidsPresent] at hau
    simp only [Bool.and_eq_true, decide_eq_true_eq] at hau
    obtain ⟨⟨huid, hch⟩, hrest⟩ := hau
    have hcount := flattenGo_links_count (jGet (JNode.mk f ch) "UID") ch hch
    have hrcount := flattenGo_links_count parent rest hrest
    rw [if_neg huid] at hcount
    rw [flattenGo]
    simp only [List.length_append]
    rw [countJNodes]
    rw [hcount, hrcount]
    have hlen := nodes_len_le_count rest
    by_cases hp : parent = ""
    · rw [if_pos hp, if_pos hp]
      have hguard : ¬(parent ≠ "" ∧ jGet (JNode.mk f ch) "UID" ≠ "") := by
        intro hq
        exact hq.1 hp
      rw [if_neg hguard]
      simp only [List.length_nil, List.length_cons]
      omega
    · rw [if_neg hp, if_neg hp]
      have hguard : parent ≠ "" ∧ jGet (JNode.mk f ch) "UID" ≠ "" := ⟨hp, huid⟩
      rw [if_pos hguard]
      simp
termination_by _ ns => sizeOf ns

/-- C6 (amended): every emitted link has kind "hierarchy", and — provided
every node in the document carries a non-empty "UID" — the number of links
emitted by `flatten_document` equals the number of parent-to-child edges
traversed, i.e. the total node count minus the number of root nodes. Links
whose parent or child UID is empty are silently skipped, so without that
proviso the count can fall short (see the counterexample). -/
theorem flatten_link_count (doc : JNode) (h : allUidsPresent doc.children = true) :
    (flatten_document doc).2.length = countJNodes doc.children - doc.children.length ∧
      ∀ l ∈ (flatten_document doc).2, l.type = "hierarchy" := by
  unfold flatten_document
  refine ⟨?_, flattenGo_type_hierarchy "" doc.children⟩
  rw [flattenGo_links_count "" doc.children h]
  simp

/-- C6 witness document: a root with one child, both with UIDs. -/
def w6doc : JNode := JNode.mk [] [JNode.mk [("UID", "r")] [JNode.mk [("UID", "c")] []]]

theorem flatten_link_count_witness :
    allUidsPresent w6doc.children = true ∧
      ((flatten_document w6doc).2.length =
          countJNodes w6doc.children - w6doc.children.length ∧
        ∀ l ∈ (flatten_document w6doc).2, l.type = "hierarchy") :=
  ⟨by simp [allUidsPresent, w6doc, JNode.children, jGet, JNode.fields],
    flatten_link_count w6doc
      (by simp [allUidsPresent, w6doc, JNode.children, jGet, JNode.fields])⟩

/-- C6 counterexample document: a root with UID "r" and one child whose
UID is empty -- one edge is traversed but no link is emitted. -/
def cexC6doc : JNode := JNode.mk [] [JNode.mk [("UID", "r")] [JNode.mk [("UID", "")] []]]

/-- C6 counterexample: `flatten_document` emits no link although one
parent-to-child edge is traversed (total nodes 2, roots 1). -/
theorem flatten_link_count_cex :
    (flatten_document cexC6doc).2 = [] ∧
      countJNodes cexC6doc.children - cexC6doc.children.length = 1 := by
  constructor
  · simp [flatten_document, flattenGo, jGet, cexC6doc, JNode.children, JNode.fields,
      List.lookup]
  · simp [countJNodes, cexC6doc, JNode.children]

/-! ## Claim C7: preprocessor idempotence -/

theorem subOpenTags_nil : subOpenTags [] = [] := by simp [subOpenTags]

theorem subCloseTags_nil : subCloseTags [] = [] := by simp [subCloseTags]

theorem subXmlnsDecls_nil : subXmlnsDecls [] = [] := by simp [subXmlnsDecls]

theorem subXmlnsDecls_cons_none {c : Char} {rest : List Char}
    (h : matchXmlnsNs (c :: rest) = none) :
    subXmlnsDecls (c :: rest) = c :: subXmlnsDecls rest := by
  unfold subXmlnsDecls
  split
  · rename_i p heq
    rw [h] at heq
    cases heq
  · rw [← subXmlnsDecls.eq_def]

theorem subOpenTags_bom : subOpenTags ['\uFEFF'] = ['\uFEFF'] := by simp [subOpenTags]

theorem subCloseTags_bom : subCloseTags ['\uFEFF'] = ['\uFEFF'] := by simp [subCloseTags]

theorem subXmlnsDecls_bom : subXmlnsDecls ['\uFEFF'] = ['\uFEFF'] := by
  rw [subXmlnsDecls_cons_none (by decide), subXmlnsDecls_nil]

theorem cutFromDecl_some_match : ∀ {l y : List Char},
    cutFromDecl l = some y → declMatchAt y = true
  | [], _, h => by simp [cutFromDecl] at h
  | c :: rest, y, h => by
    by_cases hm : declMatchAt (c :: rest) = true
    · simp only [cutFromDecl, if_pos hm] at h
      injection h with h
      subst h
      exact hm
    · simp only [cutFromDecl, if_neg hm] at h
      exact cutFromDecl_some_match h

theorem declMatchAt_shape {y : List Char} (h : declMatchAt y = true) :
    ∃ rest, y = '<' :: rest := by
  unfold declMatchAt at h
  split at h
  · exact ⟨_, rfl⟩
  · exact absurd h (by simp)

theorem subOpenTags_cons_ne {c : Char} {rest : List Char} (h : ¬ c = '<') :
    subOpenTags (c :: rest) = c :: subOpenTags rest := by
  unfold subOpenTags
  rw [if_neg h]
  rw [← subOpenTags.eq_def]

theorem subOpenTags_cons_lt_none {rest : List Char} (h : matchNsTag rest = none) :
    subOpenTags ('<' :: rest) = '<' :: subOpenTags rest := by
  unfold subOpenTags
  rw [if_pos rfl]
  split
  · rename_i p heq
    rw [h] at heq
    cases heq
  · rw [← subOpenTags.eq_def]

theorem subCloseTags_cons_ne {c : Char} {rest : List Char} (h : ¬ c = '<') :
    subCloseTags (c :: rest) = c :: subCloseTags rest := by
  unfold subCloseTags
  rw [if_neg h]
  rw [← subCloseTags.eq_def]

theorem subCloseTags_cons_lt_none {rest : List Char} (h : matchCloseNs rest = none) :
    subCloseTags ('<' :: rest) = '<' :: subCloseTags rest := by
  unfold subCloseTags
  rw [if_pos rfl]
  split
  · rename_i p heq
    rw [h] at heq
    cases heq
  · rw [← subCloseTags.eq_def]

theorem removeNsDecls_nil : removeNsDecls [] = [] := by simp [removeNsDecls]

theorem removeNsDecls_cons_ns {c : Char} {rest : List Char} (h : ¬ isPySpace c = true) :
    removeNsDecls (c :: rest) = c :: removeNsDecls rest := by
  unfold removeNsDecls
  rw [if_neg h]
  rw [← removeNsDecls.eq_def]

theorem removeNsDecls_cons_sp_none {c : Char} {rest : List Char}
    (hc : isPySpace c = true)
    (h : matchNsAttr ((c :: rest).dropWhile isPySpace) = none) :
    removeNsDecls (c :: rest) = c :: removeNsDecls rest := by
  unfold removeNsDecls
  rw [if_pos hc]
  split
  · rename_i p heq
    rw [h] at heq
    cases heq
  · rw [← removeNsDecls.eq_def]

/-- Decidable sufficient condition for `subOpenTags` to be the identity:
no position carries a `<` followed by a prefixed-tag match. -/
def openStable : List Char → Bool
  | [] => true
  | c :: rest => (decide (¬ c = '<') || decide (matchNsTag rest = none)) && openStable rest

/-- Decidable sufficient condition for `subCloseTags` to be the identity. -/
def closeStable : List Char → Bool
  | [] => true
  | c :: rest => (decide (¬ c = '<') || decide (matchCloseNs rest = none)) && closeStable rest

/-- Decidable sufficient condition for `subXmlnsDecls` to be the identity. -/
def xmlnsStable : List Char → Bool
  | [] => true
  | c :: rest => decide (matchXmlnsNs (c :: rest) = none) && xmlnsStable rest

/-- Decidable sufficient condition for `removeNsDecls` to be the identity. -/
def nsDeclStable : List Char → Bool
  | [] => true
  | c :: rest =>
    (decide (¬ isPySpace c = true) ||
      decide (matchNsAttr ((c :: rest).dropWhile isPySpace) = none)) && nsDeclStable rest

theorem subOpenTags_of_stable : ∀ (l : List Char), openStable l = true → subOpenTags l = l := by
  intro l h
  induction l with
  | nil => exact subOpenTags_nil
  | cons c rest ih =>
    simp only [openStable, Bool.and_eq_true, Bool.or_eq_true, decide_eq_true_eq] at h
    obtain ⟨hc, hrest⟩ := h
    by_cases hlt : c = '<'
    · subst hlt
      rcases hc with hne | hm
      · exact absurd rfl hne
      · rw [subOpenTags_cons_lt_none hm, ih hrest]
    · rw [subOpenTags_cons_ne hlt, ih hrest]

theorem subCloseTags_of_stable : ∀ (l : List Char), closeStable l = true → subCloseTags l = l := by
  intro l h
  induction l with
  | nil => exact subCloseTags_nil
  | cons c rest ih =>
    simp only [closeStable, Bool.and_eq_true, Bool.or_eq_true, decide_eq_true_eq] at h
    obtain ⟨hc, hrest⟩ := h
    by_cases hlt : c = '<'
    · subst hlt
      rcases hc with hne | hm
      · exact absurd rfl hne
      · rw [subCloseTags_cons_lt_none hm, ih hrest]
    · rw [subCloseTags_cons_ne hlt, ih hrest]

theorem subXmlnsDecls_of_stable : ∀ (l : List Char),
    xmlnsStable l = true → subXmlnsDecls l = l := by
  intro l h
  induction l with
  | nil => exact subXmlnsDecls_nil
  | cons c rest ih =>
    simp only [xmlnsStable, Bool.and_eq_true, decide_eq_true_eq] at h
    obtain ⟨hc, hrest⟩ := h
    rw [subXmlnsDecls_cons_none hc, ih hrest]

theorem removeNsDecls_of_stable : ∀ (l : List Char),
    nsDeclStable l = true → removeNsDecls l = l := by
  intro l h
  induction l with
  | nil => exact removeNsDecls_nil
  | cons c rest ih =>
    simp only [nsDeclStable, Bool.and_eq_true, Bool.or_eq_true, decide_eq_true_eq] at h
    obtain ⟨hc, hrest⟩ := h
    by_cases hsp : isPySpace c = true
    · rcases hc with hns | hm
      · exact absurd hsp hns
      · rw [removeNsDecls_cons_sp_none hsp hm, ih hrest]
    · rw [removeNsDecls_cons_ns hsp, ih hrest]

/-- C7 (amended): the preprocessor is idempotent on every input whose
normal form `y` is reached in the first application by BOM stripping and
cutting to the first XML declaration alone, with `y` itself left unchanged
by every rewriting step (no further leading BOM, no namespace-prefixed
tags, no prefixed xmlns declarations): either the stripped input has a
declaration and `y` is its suffix from the declaration marker, or it has
none and is `y` itself with no leading BOM. On such inputs the second
application is the identity. In general idempotence fails (see the
counterexample). -/
theorem preprocess_idempotent_on_stable (x : String) (y : List Char)
    (hcut : cutFromDecl (stripBOM x.data) = some y ∨
      (cutFromDecl (stripBOM x.data) = none ∧ stripBOM x.data = y ∧ stripBOM y = y))
    (h3 : subOpenTags y = y) (h4 : subCloseTags y = y)
    (h5 : subXmlnsDecls y = y) (h6 : removeNsDecls y = y) :
    preprocess_reqif_xml (preprocess_reqif_xml x) = preprocess_reqif_xml x ∧
      preprocess_reqif_xml x = String.mk y := by
  have hx : xmlnsStep y = y := by
    unfold xmlnsStep
    by_cases hdx : hasDefaultXmlns y
    · rw [if_pos hdx, h6]
    · rw [if_neg hdx, h5]
  have hds1 : declStep (stripBOM x.data) = y := by
    rcases hcut with hsome | ⟨hnone, hsb, _⟩
    · unfold declStep
      rw [hsome]
      rfl
    · unfold declStep
      rw [hnone, Option.getD_none, hsb]
  have hfirst : preprocess_reqif_xml x = String.mk y := by
    unfold preprocess_reqif_xml
    rw [hds1, h3, h4, hx]
  have hsb2 : stripBOM y = y := by
    rcases hcut with hsome | ⟨_, _, hsb⟩
    · obtain ⟨rest, hy⟩ := declMatchAt_shape (cutFromDecl_some_match hsome)
      subst hy
      rfl
    · exact hsb
  have hds2 : declStep y = y := by
    rcases hcut with hsome | ⟨hnone, hsbx, _⟩
    · have hm := cutFromDecl_some_match hsome
      obtain ⟨rest, hy⟩ := declMatchAt_shape hm
      subst hy
      unfold declStep
      simp only [cutFromDecl]
      rw [if_pos hm]
      rfl
    · have hcn : cutFromDecl y = none := hsbx ▸ hnone
      unfold declStep
      rw [hcn, Option.getD_none]
  have hsecond : preprocess_reqif_xml (String.mk y) = String.mk y := by
    unfold preprocess_reqif_xml
    rw [show (String.mk y).data = y from rfl, hsb2, hds2, h3, h4, hx]
  exact ⟨by rw [hfirst, hsecond], hfirst⟩

/-- C7 witness input: a byte-order mark and stray text before the XML
declaration, both removed by the first application. -/
def wx7 : String := "\uFEFFjunk<?xml?><A/>"

/-- C7 witness normal form: the input suffix from the declaration marker. -/
def wy7 : List Char := ['<', '?', 'x', 'm', 'l', '?', '>', '<', 'A', '/', '>']

theorem preprocess_idempotent_on_stable_witness :
    cutFromDecl (stripBOM wx7.data) = some wy7 ∧
      subOpenTags wy7 = wy7 ∧ subCloseTags wy7 = wy7 ∧
      subXmlnsDecls wy7 = wy7 ∧ removeNsDecls wy7 = wy7 ∧
      (preprocess_reqif_xml (preprocess_reqif_xml wx7) = preprocess_reqif_xml wx7 ∧
        preprocess_reqif_xml wx7 = String.mk wy7) := by
  have hcut : cutFromDecl (stripBOM wx7.data) = some wy7 := by decide
  have h3 : subOpenTags wy7 = wy7 := subOpenTags_of_stable wy7 (by decide)
  have h4 : subCloseTags wy7 = wy7 := subCloseTags_of_stable wy7 (by decide)
  have h5 : subXmlnsDecls wy7 = wy7 := subXmlnsDecls_of_stable wy7 (by decide)
  have h6 : removeNsDecls wy7 = wy7 := removeNsDecls_of_stable wy7 (by decide)
  exact ⟨hcut, h3, h4, h5, h6,
    preprocess_idempotent_on_stable wx7 wy7 (Or.inl hcut) h3 h4 h5 h6⟩

/-- C7 counterexample: on the two-character input of two byte-order marks
(and no XML declaration), the first application strips one mark and the
second strips the other: `preprocess(preprocess(x)) != preprocess(x)`. -/
theorem preprocess_not_idempotent_cex :
    preprocess_reqif_xml (preprocess_reqif_xml "\uFEFF\uFEFF") ≠
      preprocess_reqif_xml "\uFEFF\uFEFF" := by
  have hfd1 : ¬ hasDefaultXmlns ['\uFEFF'] = true := by
    rw [show hasDefaultXmlns ['\uFEFF'] = false from rfl]
    simp
  have hfd0 : ¬ hasDefaultXmlns [] = true := by
    rw [show hasDefaultXmlns [] = false from rfl]
    simp
  have e1 : preprocess_reqif_xml "\uFEFF\uFEFF" = "\uFEFF" := by
    unfold preprocess_reqif_xml
    rw [show ("\uFEFF\uFEFF" : String).data = ['\uFEFF', '\uFEFF'] from rfl]
    rw [show stripBOM ['\uFEFF', '\uFEFF'] = ['\uFEFF'] from rfl]
    rw [show declStep ['\uFEFF'] = ['\uFEFF'] from rfl]
    rw [subOpenTags_bom, subCloseTags_bom]
    unfold xmlnsStep
    rw [if_neg hfd1, subXmlnsDecls_bom]
  have e2 : preprocess_reqif_xml "\uFEFF" = "" := by
    unfold preprocess_reqif_xml
    rw [show ("\uFEFF" : String).data = ['\uFEFF'] from rfl]
    rw [show stripBOM ['\uFEFF'] = [] from rfl]
    rw [show declStep [] = [] from rfl]
    rw [subOpenTags_nil, subCloseTags_nil]
    unfold xmlnsStep
    rw [if_neg hfd0, subXmlnsDecls_nil]
  rw [e1, e2]
  decide

/-! ## Claim C1: duplicate-field renaming -/

/-- The normalized key of an attribute definition: the external field-title
mapping followed by the safe-name transform (`none` when the display name
is missing). -/
def attrKey (mapF : String → String) (a : AttributeDefinition) : Option String :=
  a.long_name.map (fun nm => safeName (mapF nm))

theorem seenLookup_seenSet (l : List (String × Nat)) (k k' : String) (v : Nat) :
    seenLookup (seenSet l k v) k' = if k = k' then some v else seenLookup l k' := by
  induction l with
  | nil =>
    by_cases hkk : k = k' <;> simp [seenSet, seenLookup, hkk]
  | cons p rest ih =>
    obtain ⟨a, w⟩ := p
    by_cases hak : a = k
    · subst hak
      by_cases hak' : a = k' <;> simp [seenSet, seenLookup, hak']
    · by_cases hak' : a = k'
      · subst hak'
        have hka : ¬ k = a := fun hkk => hak hkk.symm
        simp [seenSet, hak, seenLookup, hka]
      · simp [seenSet, hak, seenLookup, hak', ih]

theorem seenSet_preserves_mem (l : List (String × Nat)) (k k2 : String) (v : Nat)
    (h : seenLookup l k ≠ none) : seenLookup (seenSet l k2 v) k ≠ none := by
  rw [seenLookup_seenSet]
  by_cases hk : k2 = k <;> simp [hk, h]

theorem rename_ne_self (nm x : String) : nm ++ "_" ++ x ≠ nm := by
  intro h
  have hlen := congrArg String.length h
  simp only [String.length_append] at hlen
  have : ("_" : String).length = 1 := rfl
  omega

/-- If the key `k` is already recorded in `seen`, then no attribute that
the rest of the pass leaves unrenamed can end up with normalized key `k`
(processing only ever adds keys to `seen`). -/
theorem fixDupAttrs_ok_avoid (mapF : String → String) :
    ∀ (attrs : List AttributeDefinition) (seen : List (String × Nat))
      (out : List AttributeDefinition × List String) (k : String),
      fixDupAttrs mapF seen attrs = .ok out →
      seenLookup seen k ≠ none →
      ∀ p ∈ attrs.zip out.1, p.2.long_name = p.1.long_name → attrKey mapF p.2 ≠ some k
  | [], seen, out, k, hok, hk => by
    simp only [fixDupAttrs] at hok
    injection hok with hout
    subst hout
    simp
  | a :: rest, seen, out, k, hok, hk => by
    cases hln : a.long_name with
    | none => simp [fixDupAttrs, hln] at hok
    | some nm =>
      simp only [fixDupAttrs, hln] at hok
      cases hsl : seenLookup seen (safeName (mapF nm)) with
      | some c =>
        rw [hsl] at hok
        simp only at hok
        cases hrec : fixDupAttrs mapF (seenSet seen (safeName (mapF nm)) (c + 1)) rest with
        | ok q =>
          rw [hrec] at hok
          obtain ⟨q1, q2⟩ := q
          simp only at hok
          injection hok with hout
          subst hout
          intro p hp hname
          simp only [List.zip_cons_cons, List.mem_cons] at hp
          rcases hp with hp | hp
          · subst hp
            simp only [hln] at hname
            exact absurd (Option.some.inj hname) (rename_ne_self nm _)
          · exact fixDupAttrs_ok_avoid mapF rest _ (q1, q2) k hrec
              (seenSet_preserves_mem seen k _ _ hk) p hp hname
        | error q =>
          rw [hrec] at hok
          obtain ⟨q1, q2⟩ := q
          simp at hok
      | none =>
        rw [hsl] at hok
        simp only at hok
        cases hrec : fixDupAttrs mapF (seenSet seen (safeName (mapF nm)) 1) rest with
        | ok q =>
          rw [hrec] at hok
          obtain ⟨q1, q2⟩ := q
          simp only at hok
          injection hok with hout
          subst hout
          intro p hp hname
          simp only [List.zip_cons_cons, List.mem_cons] at hp
          rcases hp with hp | hp
          · subst hp
            simp only [attrKey, hln, Option.map_some]
            intro hkey
            injection hkey with hkey
            have hkey' : safeName (mapF nm) = k := hkey
            rw [hkey'] at hsl
            exact hk hsl
          · exact fixDupAttrs_ok_avoid mapF rest _ (q1, q2) k hrec
              (seenSet_preserves_mem seen k _ _ hk) p hp hname
        | error q =>
          rw [hrec] at hok
          obtain ⟨q1, q2⟩ := q
          simp at hok

/-- Core invariant of the duplicate-rename pass: among the attributes the
pass leaves unrenamed, normalized keys are pairwise distinct. -/
theorem fixDupAttrs_ok_pairwise (mapF : String → String) :
    ∀ (attrs : List AttributeDefinition) (seen : List (String × Nat))
      (out : List AttributeDefinition × List String),
      fixDupAttrs mapF seen attrs = .ok out →
      List.Pairwise
        (fun p q => p.2.long_name = p.1.long_name → q.2.long_name = q.1.long_name →
          attrKey mapF p.2 ≠ attrKey mapF q.2) (attrs.zip out.1)
  | [], seen, out, hok => by
    simp only [fixDupAttrs] at hok
    injection hok with hout
    subst hout
    simp
  | a :: rest, seen, out, hok => by
    cases hln : a.long_name with
    | none => simp [fixDupAttrs, hln] at hok
    | some nm =>
      simp only [fixDupAttrs, hln] at hok
      cases hsl : seenLookup seen (safeName (mapF nm)) with
      | some c =>
        rw [hsl] at hok
        simp only at hok
        cases hrec : fixDupAttrs mapF (seenSet seen (safeName (mapF nm)) (c + 1)) rest with
        | ok q =>
          rw [hrec] at hok
          obtain ⟨q1, q2⟩ := q
          simp only at hok
          injection hok with hout
          subst hout
          simp only [List.zip_cons_cons, List.pairwise_cons]
          constructor
          · intro p hp hname
            simp only [hln] at hname
            exact absurd (Option.some.inj hname) (rename_ne_self nm _)
          · exact fixDupAttrs_ok_pairwise mapF rest _ (q1, q2) hrec
        | error q =>
          rw [hrec] at hok
          obtain ⟨q1, q2⟩ := q
          simp at hok
      | none =>
        rw [hsl] at hok
        simp only at hok
        cases hrec : fixDupAttrs mapF (seenSet seen (safeName (mapF nm)) 1) rest with
        | ok q =>
          rw [hrec] at hok
          obtain ⟨q1, q2⟩ := q
          simp only at hok
          injection hok with hout
          subst hout
          simp only [List.zip_cons_cons, List.pairwise_cons]
          constructor
          · intro p hp hname hpname
            have havoid := fixDupAttrs_ok_avoid mapF rest _ (q1, q2) (safeName (mapF nm))
              hrec (by rw [seenLookup_seenSet]; simp) p hp hpname
            simp only [attrKey, hln, Option.map_some]
            exact fun he => havoid he.symm
          · exact fixDupAttrs_ok_pairwise mapF rest _ (q1, q2) hrec
        | error q =>
          rw [hrec] at hok
          obtain ⟨q1, q2⟩ := q
          simp at hok

/-- C1 (amended): within one spec type (each spec type is processed with a
fresh `seen_names`), when the pass completes without an internal
exception, any two attribute definitions that both kept their original
display names have distinct normalized keys. Renamed definitions are not
re-checked and may still collide (see the counterexample). -/
theorem fix_duplicate_kept_names_unique (mapF : String → String)
    (attrs : List AttributeDefinition) (out : List AttributeDefinition × List String)
    (h : fixDupAttrs mapF [] attrs = .ok out) :
    List.Pairwise
      (fun p q => p.2.long_name = p.1.long_name → q.2.long_name = q.1.long_name →
        attrKey mapF p.2 ≠ attrKey mapF q.2) (attrs.zip out.1) :=
  fixDupAttrs_ok_pairwise mapF attrs [] out h

/-- Witness input for C1: two distinct field names, processed without
renaming. -/
def w1attrs : List AttributeDefinition :=
  [⟨"A1", some "alpha", .STRING⟩, ⟨"A2", some "beta", .STRING⟩]

theorem fix_duplicate_kept_names_unique_witness :
    fixDupAttrs id [] w1attrs = .ok (w1attrs, []) ∧
      List.Pairwise
        (fun p q => p.2.long_name = p.1.long_name → q.2.long_name = q.1.long_name →
          attrKey id p.2 ≠ attrKey id q.2) (w1attrs.zip w1attrs) :=
  ⟨rfl, fix_duplicate_kept_names_unique id w1attrs (w1attrs, []) rfl⟩

/-- C1 counterexample input: names "a", "a", "a_2". -/
def cexC1attrs : List AttributeDefinition :=
  [⟨"A1", some "a", .STRING⟩, ⟨"A2", some "a", .STRING⟩, ⟨"A3", some "a_2", .STRING⟩]

/-- The pass's output on `cexC1attrs`. -/
def cexC1out : List AttributeDefinition :=
  [⟨"A1", some "a", .STRING⟩, ⟨"A2", some "a_2", .STRING⟩, ⟨"A3", some "a_2", .STRING⟩]

/-- A bundle holding one spec type with the colliding attributes. -/
def cexC1bundle : Bundle :=
  ⟨some ⟨some ⟨some [⟨"ST1", some "T", some cexC1attrs⟩], none, none, none⟩⟩, ⟨[]⟩⟩

/-- C1 counterexample: after the pass (no exception involved), the renamed
second attribute ("a" -> "a_2") and the untouched third attribute ("a_2")
share the normalized key "A_2": the claimed all-pairs uniqueness fails,
already at the bundle level. -/
theorem fix_duplicate_collision_cex :
    fixDupAttrs id [] cexC1attrs = .ok (cexC1out, ["a -> a_2"]) ∧
      fix_duplicate_field_names id cexC1bundle =
        (⟨some ⟨some ⟨some [⟨"ST1", some "T", some cexC1out⟩], none, none, none⟩⟩, ⟨[]⟩⟩,
          ["a -> a_2"]) ∧
      cexC1out.map (attrKey id) = [some "A", some "A_2", some "A_2"] ∧
      ¬ (cexC1out.map (attrKey id)).Nodup :=
  ⟨rfl, rfl, rfl, by decide⟩

theorem convert_at_most_two_calls_witness :
    ((convert_bundle_to_json convFailConst emptyBundle []).success = false ∧
        (apply_workarounds id emptyBundle).2 = []) ∧
      ((convert_reqif_to_json id convFailConst emptyBundle).2.2 = 1 ∧
        (convert_reqif_to_json id convFailConst emptyBundle).1 =
          ⟨false, none, (convert_bundle_to_json convFailConst emptyBundle []).error, []⟩) :=
  ⟨⟨rfl, rfl⟩, (convert_at_most_two_calls id convFailConst emptyBundle).2 ⟨rfl, rfl⟩⟩

end ReqSpec

